import Mathlib

/-!
Verification of the slack-message-pipe transformation pipeline.

This file gives a shallow embedding of the repository's core logic and
proves the specification claims about it:

* `slack_text_converter.py` — the mrkdwn-to-Markdown converter
  (`SlackTextConverter.convert_slack_text` and its helpers);
* `slack_data_formatter.py` — the fetch/format/thread-merge orchestrator
  (`fetch_and_format_channel_data`, `_format_message`,
  `_format_slack_ts_for_display`, `_format_reaction`, `_format_file`,
  `_format_attachment`);
* `slack_service.py` — thread-parent identification
  (`fetch_threads_by_ts`) and cursor pagination (`_fetch_pages`);
* `format_as_markdown.py` — the Markdown renderer;
* `intermediate_data.py` — the intermediate data model.

Conventions of the embedding:

* Python dictionaries coming from the Slack API are modelled as structures
  of `Option`-typed fields: `none` is an absent key.  A required access
  `d["k"]` is modelled in the `Except String` monad, erroring (Python
  `KeyError`) when the field is absent; `d.get("k", default)` becomes
  `Option.getD`.
* The in-memory name-lookup dictionaries are modelled as functions
  `String → Option String`; `dict.get(k, default)` is `Option.getD`.
* Python regular-expression substitutions are modelled by explicit
  left-to-right scanners over `List Char`, reproducing the semantics of
  the concrete patterns used by the source (non-greedy `<(.*?)>` and
  `\*(.+?)\*` where `.` does not match a newline, and the MULTILINE
  block-quote pattern `^>(.+)`).
* Slack Block Kit payloads (`blocks`) are not modelled: no claim
  concerns their content, the renderer does not read them, and the
  source's `_format_block` is independent of every claim checked here.
-/

namespace SlackMessagePipe

/-- The name-lookup collaborators provided by `SlackService`:
`user_names()`, `channel_names()` and `usergroup_names()` are warmed
in-memory `dict[str, str]` maps, modelled as optional-valued functions. -/
structure SlackNames where
  userNames : String → Option String
  channelNames : String → Option String
  usergroupNames : String → Option String

/-- Python `str.strip()` whitespace test (space, tab, newline, carriage
return, vertical tab, form feed). -/
def isPySpace (c : Char) : Bool :=
  c = ' ' || c = '\t' || c = '\n' || c = '\r' || c = '\x0b' || c = '\x0c'

/-- Python `str.strip()`: drop leading and trailing whitespace. -/
def pyStrip (l : List Char) : List Char :=
  ((l.dropWhile isPySpace).reverse.dropWhile isPySpace).reverse

/-- Models `pat.isPrefixOf l` for char lists; models Python `str.startswith`. -/
def leadsWith : List Char → List Char → Bool
  | [], _ => true
  | _ :: _, [] => false
  | p :: ps, c :: cs => p = c && leadsWith ps cs

/-- Python `str.split(sep)` for a one-character separator. -/
def splitOnChar (sep : Char) : List Char → List (List Char)
  | [] => [[]]
  | c :: cs =>
      let r := splitOnChar sep cs
      if c = sep then [] :: r
      else
        match r with
        | [] => [[c]]
        | h :: t => (c :: h) :: t

/-- Models `SlackTextConverter._process_user_id`: transform a user id into a
markdown mention, with `user_<id>` as the unresolved fallback. -/
def process_user_id (n : SlackNames) (uid : List Char) : List Char :=
  '@' :: ((n.userNames (String.mk uid)).getD ("user_" ++ String.mk uid)).toList

/-- Models `SlackTextConverter._process_channel_id`: transform a channel id into
a channel name, with `channel_<id>` as the unresolved fallback. -/
def process_channel_id (n : SlackNames) (cid : List Char) : List Char :=
  '#' :: ((n.channelNames (String.mk cid)).getD ("channel_" ++ String.mk cid)).toList

/-- Models `SlackTextConverter._process_user_group_id`: the source computes
`usergroup_match.split("^")[1]` (a `KeyError`-like `IndexError` if no
caret is present — modelled as the error case) and resolves it with
`usergroup_<id>` as the unresolved fallback. -/
def process_user_group_id (n : SlackNames) (m : List Char) : Except String (List Char) :=
  match (splitOnChar '^' m)[1]? with
  | none => Except.error "IndexError: list index out of range"
  | some gid =>
      Except.ok
        ('@' :: ((n.usergroupNames (String.mk gid)).getD ("usergroup_" ++ String.mk gid)).toList)

/-- Models `SlackTextConverter._process_special_mention`: `!here`, `!channel`,
`!everyone` become plain mentions; `!date^<id>` passes the raw id
through; anything else is prefixed with `@`. -/
def process_special_mention (m : List Char) : Except String (List Char) :=
  if m = "!here".toList then Except.ok "@here".toList
  else if m = "!channel".toList then Except.ok "@channel".toList
  else if m = "!everyone".toList then Except.ok "@everyone".toList
  else if leadsWith "!date^".toList m then
    match (splitOnChar '^' m)[1]? with
    | none => Except.error "IndexError: list index out of range"
    | some date_id => Except.ok date_id
  else Except.ok ('@' :: m)

/-- Models `SlackTextConverter._process_url`: split on `|`; with exactly two
parts emit `[text](url)`, otherwise use the first part (stripped) for
both the display text and the url. -/
def process_url (m : List Char) : Except String (List Char) :=
  if (splitOnChar '|' m).length = 2 then
    match (splitOnChar '|' m)[0]?, (splitOnChar '|' m)[1]? with
    | some url, some text =>
        Except.ok
          ('[' :: pyStrip text ++ ']' :: '(' :: pyStrip url ++ [')'])
    | _, _ => Except.error "IndexError: list index out of range"
  else
    match (splitOnChar '|' m)[0]? with
    | some u =>
        Except.ok ('[' :: pyStrip u ++ ']' :: '(' :: pyStrip u ++ [')'])
    | none => Except.error "IndexError: list index out of range"

/-- Models `SlackTextConverter._replace_markdown_in_text`: dispatch on the
bracket content's prefix. -/
def replace_markdown_in_text (n : SlackNames) (m : List Char) : Except String (List Char) :=
  if leadsWith "@U".toList m || leadsWith "@W".toList m then
    Except.ok (process_user_id n (m.drop 1))
  else if leadsWith "#C".toList m then
    Except.ok (process_channel_id n (m.drop 1))
  else if leadsWith "!subteam^".toList m then
    process_user_group_id n m
  else if leadsWith "!".toList m then
    process_special_mention m
  else
    process_url m

/-- For the non-greedy pattern `<(.*?)>` (with `.` not matching a
newline): after an opening `<`, find the shortest content ending at the
first `>`, failing if a newline or the end of input intervenes.
Returns the content and the remainder after the `>`. -/
def findCloser : List Char → Option (List Char × List Char)
  | [] => none
  | c :: cs =>
      if c = '>' then some ([], cs)
      else if c = '\n' then none
      else (findCloser cs).map (fun p => (c :: p.1, p.2))

/-- One pass of `re.sub(r"<(.*?)>", f, text)`: scan left to right,
replacing each match; positions where no match starts are copied
through.  `fuel` bounds the recursion (the wrapper passes the input
length, which always suffices because the remainder after a match is a
strict suffix); when fuel runs out the rest is returned unchanged. -/
def subAngleGo (f : List Char → Except String (List Char)) :
    Nat → List Char → Except String (List Char)
  | _, [] => Except.ok []
  | 0, l => Except.ok l
  | fuel + 1, c :: cs =>
      if c = '<' then
        match findCloser cs with
        | some p => do
            let rep ← f p.1
            let tail ← subAngleGo f fuel p.2
            Except.ok (rep ++ tail)
        | none => do
            let tail ← subAngleGo f fuel cs
            Except.ok (c :: tail)
      else do
        let tail ← subAngleGo f fuel cs
        Except.ok (c :: tail)

/-- Models `re.sub(r"<(.*?)>", self._replace_markdown_in_text, result)`. -/
def subAngle (n : SlackNames) (l : List Char) : Except String (List Char) :=
  subAngleGo (replace_markdown_in_text n) l.length l

/-- For the non-greedy pattern `\*(.+?)\*`: given the characters after
an opening `*` and a first content character already consumed, find the
next `*` before any newline. -/
def upToStar : List Char → Option (List Char × List Char)
  | [] => none
  | c :: cs =>
      if c = '*' then some ([], cs)
      else if c = '\n' then none
      else (upToStar cs).map (fun p => (c :: p.1, p.2))

/-- After an opening `*`, match `(.+?)\*`: at least one non-newline
content character, then the closing `*`. -/
def findStar : List Char → Option (List Char × List Char)
  | [] => none
  | c :: cs =>
      if c = '\n' then none
      else (upToStar cs).map (fun p => (c :: p.1, p.2))

/-- One pass of `re.sub(r"\*(.+?)\*", r"**\1**", text)` (bold rewrite). -/
def subStarGo : Nat → List Char → List Char
  | _, [] => []
  | 0, l => l
  | fuel + 1, c :: cs =>
      if c = '*' then
        match findStar cs with
        | some p => '*' :: '*' :: p.1 ++ '*' :: '*' :: subStarGo fuel p.2
        | none => c :: subStarGo fuel cs
      else c :: subStarGo fuel cs

/-- Models `re.sub(r"\*(.+?)\*", r"**\1**", result)`. -/
def subStar (l : List Char) : List Char :=
  subStarGo l.length l

/-- Models `re.sub(r"\b_(.+?)_\b", r"_\1_", result)`: the replacement template
rebuilds exactly the matched text (`_` + group + `_`), so this pass is
the identity on the string. -/
def italicPass (l : List Char) : List Char := l

/-- Models ``re.sub(r"`(.+?)`", r"`\1`", result)``: the replacement template
rebuilds exactly the matched text, so this pass is the identity. -/
def codePass (l : List Char) : List Char := l

/-- One line of `re.sub(r"^>(.+)", r"> \1", result, flags=re.MULTILINE)`:
a line starting with `>` followed by at least one character gets a
space inserted after the `>` (the greedy `(.+)` takes the whole rest of
the line). -/
def bqLine (l : List Char) : List Char :=
  match l with
  | '>' :: c :: cs => '>' :: ' ' :: c :: cs
  | _ => l

/-- The MULTILINE block-quote substitution, applied line by line. -/
def subBlockquote (l : List Char) : List Char :=
  List.intercalate ['\n'] ((splitOnChar '\n' l).map bqLine)

/-- Models `SlackTextConverter.convert_slack_text(text, is_markdown)`: return
`text` unchanged when `is_markdown` is false, otherwise apply the
bracket substitution, then bold, italic, code and block-quote passes in
the source's order. -/
def convert_slack_text (n : SlackNames) (text : String) (is_markdown : Bool) :
    Except String String :=
  if !is_markdown then Except.ok text
  else do
    let r1 ← subAngle n text.toList
    let r2 := subStar r1
    let r3 := italicPass r2
    let r4 := codePass r3
    let r5 := subBlockquote r4
    Except.ok (String.mk r5)

/-! ## Timestamp display (`SlackDataFormatter._format_slack_ts_for_display`) -/

/-- Sum the decimal digits of a numeral. -/
def digitsToNat (l : List Char) : Nat :=
  l.foldl (fun a c => a * 10 + (c.toNat - '0'.toNat)) 0

/-- Models `float(ts)` followed by the whole-second truncation performed
by `strftime` for the nonnegative fixed-point decimal timestamp strings
the Slack API supplies (`"100"`, `"1618247984.000500"`, …).  Other
Python float syntaxes (signs, exponents, `inf`) never occur as Slack
timestamps and are outside the model (mapped to the error case, as an
unparseable string raises `ValueError` in the source). -/
def parse_ts (s : String) : Option Nat :=
  let intPart := s.toList.takeWhile (fun c => c ≠ '.')
  let rest := s.toList.dropWhile (fun c => c ≠ '.')
  if intPart ≠ [] && intPart.all Char.isDigit && (rest.drop 1).all Char.isDigit then
    some (digitsToNat intPart)
  else none

/-- Proleptic-Gregorian civil date from a day count since 1970-01-01
(the standard era-based algorithm, as used by CPython's UTC
`datetime.fromtimestamp`). -/
def civilFromDays (z0 : Nat) : Nat × Nat × Nat :=
  let z := z0 + 719468
  let era := z / 146097
  let doe := z % 146097
  let yoe := (doe - doe / 1460 + doe / 36524 - doe / 146096) / 365
  let y := yoe + era * 400
  let doy := doe - (365 * yoe + yoe / 4 - yoe / 100)
  let mp := (5 * doy + 2) / 153
  let d := doy - (153 * mp + 2) / 5 + 1
  let m := if mp < 10 then mp + 3 else mp - 9
  (if m ≤ 2 then y + 1 else y, m, d)

/-- UTC civil time (year, month, day, hour, minute, second) of an epoch
second count. -/
structure CivilTime where
  year : Nat
  month : Nat
  day : Nat
  hour : Nat
  minute : Nat
  second : Nat
deriving DecidableEq, Repr

/-- Split a nonnegative epoch-seconds value into UTC civil fields. -/
def utcCivilOfEpoch (n : Nat) : CivilTime :=
  let c := civilFromDays (n / 86400)
  let rem := n % 86400
  ⟨c.1, c.2.1, c.2.2, rem / 3600, rem % 3600 / 60, rem % 60⟩

/-- Zero-pad to two digits (`strftime` `%m`/`%d`/`%H`/`%M`/`%S`). -/
def pad2 (n : Nat) : String :=
  if n < 10 then "0" ++ toString n else toString n

/-- Zero-pad to four digits (`strftime` `%Y`). -/
def pad4 (n : Nat) : String :=
  if n < 10 then "000" ++ toString n
  else if n < 100 then "00" ++ toString n
  else if n < 1000 then "0" ++ toString n
  else toString n

/-- Render civil fields with the fixed format string
`"%Y-%m-%d %H:%M:%S GMT"`. -/
def strftimeGmt (c : CivilTime) : String :=
  pad4 c.year ++ "-" ++ pad2 c.month ++ "-" ++ pad2 c.day ++ " " ++
    pad2 c.hour ++ ":" ++ pad2 c.minute ++ ":" ++ pad2 c.second ++ " GMT"

/-- Models `SlackDataFormatter._format_slack_ts_for_display`: convert the Slack
timestamp to a float, then to a UTC datetime (`tz=pytz.utc`), and format
it as `"%Y-%m-%d %H:%M:%S GMT"`.  The method reads no instance state:
in particular it does not consult the configured locale or timezone. -/
def format_slack_ts_for_display (ts : String) : Except String String :=
  match parse_ts ts with
  | none => Except.error "ValueError: could not convert string to float"
  | some n => Except.ok (strftimeGmt (utcCivilOfEpoch n))

/-! ## Intermediate data model (`intermediate_data.py`) -/

/-- Models `intermediate_data.User`. -/
structure User where
  id : String
  name : String
deriving DecidableEq, Repr

/-- Models `intermediate_data.Channel`. -/
structure Channel where
  id : String
  name : String
deriving DecidableEq, Repr

/-- Models `intermediate_data.Reaction`. -/
structure Reaction where
  name : String
  count : Nat
  user_ids : List String
deriving DecidableEq, Repr

/-- A timezone-aware Python `datetime`: an instant (epoch seconds)
together with the attached `tzinfo`, here recorded as a fixed offset in
minutes.  Only `_format_file` builds one, via
`datetime.fromtimestamp(float(t), tz=self._locale_helper.timezone)`. -/
structure DateTimeTz where
  epoch : Nat
  tzOffsetMinutes : Int
deriving DecidableEq, Repr

/-- Models `intermediate_data.File`. -/
structure File where
  id : String
  url : String
  name : String
  filetype : String
  title : Option String
  mimetype : Option String
  size : Option Nat
  timestamp : Option DateTimeTz
deriving DecidableEq, Repr

/-- Models `intermediate_data.Attachment`. -/
structure Attachment where
  fallback : String
  text : String
  pretext : Option String
  title : Option String
  title_link : Option String
  author_name : Option String
  footer : Option String
  image_url : Option String
  color : Option String
deriving DecidableEq, Repr

/-- Models `intermediate_data.Message` (Block Kit `blocks` omitted, see the
header note).  `replies` makes this a tree. -/
inductive Message : Type where
  | mk :
      (user : Option User) →
      (ts : String) →
      (thread_ts : Option String) →
      (ts_display : String) →
      (thread_ts_display : Option String) →
      (text : String) →
      (reactions : List Reaction) →
      (files : List File) →
      (attachments : List Attachment) →
      (parent_user_id : Option String) →
      (is_bot : Bool) →
      (replies : List Message) →
      Message

def Message.user : Message → Option User
  | .mk u _ _ _ _ _ _ _ _ _ _ _ => u

def Message.ts : Message → String
  | .mk _ ts _ _ _ _ _ _ _ _ _ _ => ts

def Message.thread_ts : Message → Option String
  | .mk _ _ t _ _ _ _ _ _ _ _ _ => t

def Message.ts_display : Message → String
  | .mk _ _ _ d _ _ _ _ _ _ _ _ => d

def Message.thread_ts_display : Message → Option String
  | .mk _ _ _ _ d _ _ _ _ _ _ _ => d

def Message.text : Message → String
  | .mk _ _ _ _ _ t _ _ _ _ _ _ => t

def Message.reactions : Message → List Reaction
  | .mk _ _ _ _ _ _ r _ _ _ _ _ => r

def Message.files : Message → List File
  | .mk _ _ _ _ _ _ _ f _ _ _ _ => f

def Message.attachments : Message → List Attachment
  | .mk _ _ _ _ _ _ _ _ a _ _ _ => a

def Message.parent_user_id : Message → Option String
  | .mk _ _ _ _ _ _ _ _ _ p _ _ => p

def Message.is_bot : Message → Bool
  | .mk _ _ _ _ _ _ _ _ _ _ b _ => b

def Message.replies : Message → List Message
  | .mk _ _ _ _ _ _ _ _ _ _ _ r => r

/-- Models `parent_message.replies.append(...)` repeated over a reply list:
extend the `replies` field, leaving every other field unchanged. -/
def Message.addReplies : Message → List Message → Message
  | .mk u ts tts tsd ttsd txt re fi at_ pu bot rep, rs =>
      .mk u ts tts tsd ttsd txt re fi at_ pu bot (rep ++ rs)

/-- Models `intermediate_data.ChannelExportData`. -/
structure ChannelExportData where
  channel : Channel
  top_level_messages : List Message

/-! ## Raw Slack API payloads (`SlackMessage` and nested dicts) -/

/-- A reaction dict: `_format_reaction` requires `name`, `count`,
`users`. -/
structure RawReaction where
  name : Option String := none
  count : Option Nat := none
  users : Option (List String) := none
deriving DecidableEq, Repr

/-- A file dict: `_format_file` requires `id`, `url_private`, `name`,
`filetype`; `title`/`mimetype`/`size`/`timestamp` are optional.  The
`timestamp` value is a number, modelled directly as epoch seconds. -/
structure RawFile where
  id : Option String := none
  url_private : Option String := none
  name : Option String := none
  filetype : Option String := none
  title : Option String := none
  mimetype : Option String := none
  size : Option Nat := none
  timestamp : Option Nat := none
deriving DecidableEq, Repr

/-- An attachment dict: every field is read with `.get`. -/
structure RawAttachment where
  fallback : Option String := none
  text : Option String := none
  pretext : Option String := none
  title : Option String := none
  title_link : Option String := none
  author_name : Option String := none
  footer : Option String := none
  image_url : Option String := none
  color : Option String := none
  mrkdwn_in : List String := []
deriving DecidableEq, Repr

/-- Models `slack_service.SlackMessage` (a `TypedDict` with `total=False`):
every key may be absent.  The list-valued keys are read with
`.get(k, [])`, so key absence and the empty list coincide and are
modelled together. -/
structure RawMessage where
  user : Option String := none
  bot_id : Option String := none
  username : Option String := none
  text : Option String := none
  ts : Option String := none
  thread_ts : Option String := none
  mrkdwn : Option Bool := none
  reactions : List RawReaction := []
  files : List RawFile := []
  attachments : List RawAttachment := []
deriving DecidableEq, Repr

/-- The locale/timezone configuration resolved by the CLI boundary
(`LocaleHelper`), consumed opaquely by the formatter. -/
structure LocaleConfig where
  tzOffsetMinutes : Int
  localeName : String

/-- Python truthiness of an optional string (`None` and `""` are
falsy). -/
def pyTruthy : Option String → Bool
  | none => false
  | some s => s ≠ ""

/-- Python `a or b` on optional strings: `a` when truthy, else `b`. -/
def pyOrStr (a b : Option String) : Option String :=
  if pyTruthy a then a else b

/-- A required dict access `d["k"]`: `KeyError` when absent. -/
def require {α : Type} (msg : String) : Option α → Except String α
  | none => Except.error msg
  | some a => Except.ok a

/-! ## Per-item formatting (`SlackDataFormatter`) -/

/-- Modelled from the spec: `MessageToMarkdown.transform_text` — the
module `message_to_markdown.py` is not under `src/`.  Per spec §4.1 the
markup conversion contract is `convert(text, isMarkup)` with the
behaviour of `SlackTextConverter.convert_slack_text`, and `cli.py`
wires a `SlackTextConverter` into this role, so `transform_text` is
`convert_slack_text`. -/
def transform_text (n : SlackNames) (text : String) (is_markdown : Bool) :
    Except String String :=
  convert_slack_text n text is_markdown

/-- Models `SlackDataFormatter._format_reaction`. -/
def format_reaction (r : RawReaction) : Except String Reaction := do
  let name ← require "KeyError: name" r.name
  let count ← require "KeyError: count" r.count
  let users ← require "KeyError: users" r.users
  Except.ok ⟨name, count, users⟩

/-- Models `SlackDataFormatter._format_file`: the optional `timestamp` is
converted with `datetime.fromtimestamp(float(t), tz=self._locale_helper.timezone)`,
i.e. it carries the configured timezone. -/
def format_file (cfg : LocaleConfig) (f : RawFile) : Except String File := do
  let id ← require "KeyError: id" f.id
  let url ← require "KeyError: url_private" f.url_private
  let name ← require "KeyError: name" f.name
  let filetype ← require "KeyError: filetype" f.filetype
  Except.ok ⟨id, url, name, filetype, f.title, f.mimetype, f.size,
    f.timestamp.map (fun t => ⟨t, cfg.tzOffsetMinutes⟩)⟩

/-- Models `SlackDataFormatter._format_attachment`: the text is markup iff
`"text"` appears in the attachment's `mrkdwn_in` list. -/
def format_attachment (n : SlackNames) (a : RawAttachment) : Except String Attachment := do
  let is_markdown := a.mrkdwn_in.contains "text"
  let text ← transform_text n (a.text.getD "") is_markdown
  Except.ok ⟨a.fallback.getD "", text, a.pretext, a.title, a.title_link,
    a.author_name, a.footer, a.image_url, a.color⟩

/-- The author-resolution step of `_format_message`:
`user_id = msg.get("user") or msg.get("bot_id")`, then
`if user_id:` build a `User` with the `unknown_user_<id>` fallback. -/
def resolve_author (n : SlackNames) (msg : RawMessage) : Option User :=
  match pyOrStr msg.user msg.bot_id with
  | some uid =>
      if uid ≠ "" then some ⟨uid, (n.userNames uid).getD ("unknown_user_" ++ uid)⟩
      else none
  | none => none

/-- The `thread_ts_display` step of `_format_message`:
`self._format_slack_ts_for_display(thread_ts) if thread_ts else None`
(an absent or empty `thread_ts` is falsy). -/
def format_thread_ts_display : Option String → Except String (Option String)
  | some t =>
      if t ≠ "" then Except.map some (format_slack_ts_for_display t)
      else Except.ok none
  | none => Except.ok none

/-- Models `SlackDataFormatter._format_message`: resolve the author
(`msg.get("user") or msg.get("bot_id")`, with the
`unknown_user_<id>` fallback), require `ts`, compute the display
timestamps, convert the text (mrkdwn defaulting to true), and map the
nested payloads.  `replies` starts empty; `parent_user_id` is never
set. -/
def format_message (n : SlackNames) (cfg : LocaleConfig) (msg : RawMessage) :
    Except String Message := do
  let user := resolve_author n msg
  let ts ← require "KeyError: ts" msg.ts
  let thread_ts := msg.thread_ts
  let ts_display ← format_slack_ts_for_display ts
  let thread_ts_display ← format_thread_ts_display thread_ts
  let is_markdown := msg.mrkdwn.getD true
  let textRaw ← require "KeyError: text" msg.text
  let text ← transform_text n textRaw is_markdown
  let reactions ← msg.reactions.mapM format_reaction
  let files ← msg.files.mapM (format_file cfg)
  let attachments ← msg.attachments.mapM (format_attachment n)
  Except.ok (Message.mk user ts thread_ts ts_display thread_ts_display text
    reactions files attachments none msg.bot_id.isSome [])

/-! ## Thread fetching and the merge (`slack_service.py`,
`slack_data_formatter.py`) -/

/-- The remote-source collaborator as the orchestrator consumes it:
`fetchTopLevel` is the result of
`SlackService.fetch_messages_from_channel` and `fetchThread ts` the
result of `SlackService._fetch_messages_from_thread` for `ts` (each
internally paginated and capped, see `fetch_pages`). -/
structure SlackEnv where
  names : SlackNames
  fetchTopLevel : List RawMessage
  fetchThread : String → List RawMessage

/-- Python `dict` assignment `d[k] = v` on an insertion-ordered
association list: overwrite in place when the key exists, else append. -/
def dictInsert {α : Type} (d : List (String × α)) (k : String) (v : α) :
    List (String × α) :=
  if d.any (fun p => p.1 == k) then
    d.map (fun p => if p.1 == k then (k, v) else p)
  else d ++ [(k, v)]

/-- Loop body of `SlackService.fetch_threads_by_ts`: for each top-level
message with `"thread_ts" in msg and msg["thread_ts"] == msg["ts"]`,
fetch that thread and store it under its `thread_ts`.  Reading
`msg["ts"]` raises when absent (only reached when `thread_ts` is
present). -/
def fetch_threads_go (fetchThread : String → List RawMessage) :
    List RawMessage → List (String × List RawMessage) →
    Except String (List (String × List RawMessage))
  | [], acc => Except.ok acc
  | msg :: rest, acc =>
      match msg.thread_ts with
      | none => fetch_threads_go fetchThread rest acc
      | some t => do
          let ts ← require "KeyError: ts" msg.ts
          if t == ts then
            fetch_threads_go fetchThread rest (dictInsert acc t (fetchThread t))
          else
            fetch_threads_go fetchThread rest acc

/-- Models `SlackService.fetch_threads_by_ts` (the time bounds and the thread
message cap are internal to the `fetchThread` collaborator). -/
def fetch_threads_by_ts (fetchThread : String → List RawMessage)
    (msgs : List RawMessage) : Except String (List (String × List RawMessage)) :=
  fetch_threads_go fetchThread msgs []

/-- The merge loop's body in `fetch_and_format_channel_data`: format
each entry of a fetched thread whose `ts` differs from the thread's
`thread_ts` (the parent itself is skipped), in source order.  Reading
`reply_slack_message["ts"]` raises when absent. -/
def format_thread_replies (n : SlackNames) (cfg : LocaleConfig) (thread_ts : String) :
    List RawMessage → Except String (List Message)
  | [] => Except.ok []
  | r :: rs => do
      let ts ← require "KeyError: ts" r.ts
      if ts != thread_ts then do
        let m ← format_message n cfg r
        let tail ← format_thread_replies n cfg thread_ts rs
        Except.ok (m :: tail)
      else
        format_thread_replies n cfg thread_ts rs

/-- Appending to `parent_messages_by_ts.get(thread_ts)`: the dict
comprehension `{msg.ts: msg for msg in top_level_messages}` maps each
timestamp to the **last** message carrying it, and the append mutates
that shared object.  On the list this updates the last element whose
`ts` matches, extending its `replies`. -/
def appendRepliesToLast : List Message → String → List Message → List Message
  | [], _, _ => []
  | m :: rest, k, rs =>
      if rest.any (fun m2 => m2.ts == k) then
        m :: appendRepliesToLast rest k rs
      else if m.ts == k then
        m.addReplies rs :: rest
      else
        m :: rest

/-- The thread-nesting loop of `fetch_and_format_channel_data`: iterate
over the fetched threads in insertion order; when a parent with the
thread's timestamp exists among the formatted top-level messages,
format the thread's non-parent entries and append them to that parent's
`replies`; otherwise the thread is dropped. -/
def merge_threads (n : SlackNames) (cfg : LocaleConfig) :
    List Message → List (String × List RawMessage) → Except String (List Message)
  | msgs, [] => Except.ok msgs
  | msgs, (k, raws) :: rest =>
      if msgs.any (fun m => m.ts == k) then do
        let rs ← format_thread_replies n cfg k raws
        merge_threads n cfg (appendRepliesToLast msgs k rs) rest
      else
        merge_threads n cfg msgs rest

/-- Models `SlackDataFormatter.fetch_and_format_channel_data`: fetch the
top-level messages and their threads, format every top-level message,
nest the thread replies under their parents, resolve the channel name
(`channel_<id>` fallback) and assemble the `ChannelExportData`.  The
source's surrounding `try/except` logs any exception and re-raises it,
so errors propagate unchanged. -/
def fetch_and_format_channel_data (E : SlackEnv) (cfg : LocaleConfig)
    (channel_id : String) : Except String ChannelExportData := do
  let top := E.fetchTopLevel
  let threads ← fetch_threads_by_ts E.fetchThread top
  let formatted ← top.mapM (format_message E.names cfg)
  let merged ← merge_threads E.names cfg formatted threads
  let channel_name := (E.names.channelNames channel_id).getD ("channel_" ++ channel_id)
  Except.ok ⟨⟨channel_id, channel_name⟩, merged⟩

/-! ## Pagination (`SlackService._fetch_pages`) -/

/-- The page loop of `_fetch_pages`, after the first page has been
received: while `(not max_rows or len(rows) < max_rows)` and the last
response carried a `next_cursor`, request the next page and concatenate
its rows.  The remaining pages the source would supply are given as a
list (a response has a `next_cursor` exactly when another page
remains).  Returns the accumulated rows together with the number of
follow-up pages requested — the second component instruments the same
loop, it does not alter it.  Note the Python truthiness in the guard: a
cap of `0` is falsy, disabling the cap entirely. -/
def fetch_pages_go {α : Type} (maxRows : Option Nat) :
    List α → List (List α) → List α × Nat
  | rows, [] => (rows, 0)
  | rows, p :: rest =>
      if (match maxRows with
          | none => true
          | some m => m = 0 || rows.length < m) then
        let r := fetch_pages_go maxRows (rows ++ p) rest
        (r.1, r.2 + 1)
      else (rows, 0)

/-- Models `SlackService._fetch_pages`: the first request is always made and
returns `first`; the loop then accumulates follow-up pages.  The rows
are returned as fetched — they are never truncated to `maxRows`. -/
def fetch_pages {α : Type} (maxRows : Option Nat) (first : List α)
    (rest : List (List α)) : List α :=
  (fetch_pages_go maxRows first rest).1

/-- The number of pages `_fetch_pages` requests in total (the
unconditional first request plus the follow-ups). -/
def fetch_pages_requested {α : Type} (maxRows : Option Nat) (first : List α)
    (rest : List (List α)) : Nat :=
  (fetch_pages_go maxRows first rest).2 + 1

/-! ## Markdown renderer (`format_as_markdown.py`) -/

/-- Python f-string rendering of an optional string (`None` prints as
`"None"`). -/
def optStr : Option String → String
  | none => "None"
  | some s => s

/-- Models `message.user.name if message.user else "Unknown User"`. -/
def userNameOr : Option User → String
  | some u => u.name
  | none => "Unknown User"

/-- Models `file.title or file.name` (Python `or`: an absent or empty title
falls back to the name). -/
def fileTitleOrName (f : File) : String :=
  match f.title with
  | some t => if t = "" then f.name else t
  | none => f.name

/-- One attachment bullet:
`f"* **{attachment.title}** (fallback: {attachment.fallback})\n"`. -/
def attachmentLine (a : Attachment) : String :=
  "* **" ++ optStr a.title ++ "** (fallback: " ++ a.fallback ++ ")\n"

/-- One file bullet: `f"* [{file.title or file.name}]({file.url})\n"`. -/
def fileLine (f : File) : String :=
  "* [" ++ fileTitleOrName f ++ "](" ++ f.url ++ ")\n"

/-- The reactions line: `"Reactions: "` plus the comma-joined
`f"{r.name} ({r.count})"` entries and a newline. -/
def reactionsLine (rs : List Reaction) : String :=
  "Reactions: " ++
    String.intercalate ", " (rs.map (fun r => r.name ++ " (" ++ toString r.count ++ ")")) ++
    "\n"

/-- The per-message block shared by the renderer's two loops: body,
attachment bullets, file bullets and the conditional reactions line,
followed by the blank line.  The source reads the body from the
attribute `message.markdown`; `intermediate_data.Message` does not
declare that attribute.  Modelled from the spec: per §3 the
markup-converted body of a `Message` is its `text` field, so the body
is read from `text` here. -/
def messageBlock (m : Message) : String :=
  m.text ++ "\n\n" ++
    String.join (m.attachments.map attachmentLine) ++
    String.join (m.files.map fileLine) ++
    (if m.reactions.isEmpty then "" else reactionsLine m.reactions) ++
    "\n"

mutual

/-- One iteration of the `format_replies` loop: the heading
(`'#' * level`), the message block, then the reply's own replies one
level deeper. -/
def render_reply : Message → Nat → String
  | m@(Message.mk _ _ _ _ _ _ _ _ _ _ _ replies), level =>
      String.mk (List.replicate level '#') ++ " " ++ userNameOr m.user ++
          " (" ++ m.ts_display ++ ")\n" ++
        messageBlock m ++
        format_replies replies (level + 1)

/-- Models `format_as_markdown.format_replies`: recursively render replies at
the given heading level, one level deeper per nesting level. -/
def format_replies : List Message → Nat → String
  | [], _ => ""
  | m :: rest, level => render_reply m level ++ format_replies rest level

end

/-- The renderer's top-level loop: a level-2 heading per message, the
message block, then the replies at heading level 3. -/
def format_top_level : List Message → String
  | [] => ""
  | m :: rest =>
      "## " ++ userNameOr m.user ++ " (" ++ m.ts_display ++ ")\n" ++
        messageBlock m ++
        format_replies m.replies 3 ++
        format_top_level rest

/-- Models `format_as_markdown.format_as_markdown`: a level-1 heading with the
channel name, then every top-level message.  The source annotates its
argument as `ChannelHistory`, a name `intermediate_data.py` does not
define; modelled from the spec: per §3 the sole object crossing the
boundary to the renderer is `ChannelExportData`, which carries exactly
the fields the renderer reads (`channel`, `top_level_messages`). -/
def format_as_markdown (history : ChannelExportData) : String :=
  "# " ++ history.channel.name ++ "\n\n" ++
    format_top_level history.top_level_messages

/-! ## General lemmas about the embedding -/

theorem ok_bind {α β : Type} (a : α) (f : α → Except String β) :
    (Except.ok a >>= f : Except String β) = f a := rfl

theorem error_bind {α β : Type} (e : String) (f : α → Except String β) :
    (Except.error e >>= f : Except String β) = Except.error e := rfl

theorem bind_eq_ok {α β : Type} {x : Except String α} {f : α → Except String β}
    {b : β} : (x >>= f) = Except.ok b ↔ ∃ a, x = Except.ok a ∧ f a = Except.ok b := by
  cases x with
  | error e => simp [error_bind]
  | ok a => simp [ok_bind]

theorem require_eq_ok {α : Type} {s : String} {o : Option α} {a : α} :
    require s o = Except.ok a ↔ o = some a := by
  cases o <;> simp [require]

theorem mkToList (s : String) : String.mk s.toList = s := by
  cases s
  rfl

theorem leadsWith_iff_append {p l : List Char} :
    leadsWith p l = true ↔ ∃ t, l = p ++ t := by
  induction p generalizing l with
  | nil => simp [leadsWith]
  | cons a ps ih =>
      cases l with
      | nil => simp [leadsWith]
      | cons c cs =>
          simp only [leadsWith, List.cons_append, Bool.and_eq_true, decide_eq_true_eq, ih,
            List.cons.injEq]
          constructor
          · rintro ⟨rfl, t, rfl⟩
            exact ⟨t, rfl, rfl⟩
          · rintro ⟨t, h1, rfl⟩
            exact ⟨h1.symm, t, rfl⟩

theorem splitOnChar_length_pos (sep : Char) (l : List Char) :
    0 < (splitOnChar sep l).length := by
  induction l with
  | nil => simp [splitOnChar]
  | cons c cs ih =>
      simp only [splitOnChar]
      by_cases h : c = sep
      · simp [h]
      · simp only [if_neg h]
        cases hr : splitOnChar sep cs with
        | nil => simp
        | cons a b => simp

theorem splitOnChar_length_ge_two (sep : Char) (l : List Char) (h : sep ∈ l) :
    2 ≤ (splitOnChar sep l).length := by
  induction l with
  | nil => simp at h
  | cons c cs ih =>
      simp only [splitOnChar]
      by_cases hc : c = sep
      · simp only [if_pos hc, List.length_cons]
        have := splitOnChar_length_pos sep cs
        omega
      · have hmem : sep ∈ cs := by
          rcases List.mem_cons.mp h with h1 | h1
          · exact absurd h1.symm hc
          · exact h1
        simp only [if_neg hc]
        cases hr : splitOnChar sep cs with
        | nil => have := splitOnChar_length_pos sep cs; simp [hr] at this
        | cons a b =>
            have := ih hmem
            simp [hr] at this ⊢
            omega

theorem splitOnChar_of_not_mem (sep : Char) (l : List Char) (h : sep ∉ l) :
    splitOnChar sep l = [l] := by
  induction l with
  | nil => rfl
  | cons c cs ih =>
      have hc : c ≠ sep := fun hq => h (hq ▸ List.mem_cons_self c cs)
      have hcs : sep ∉ cs := fun hq => h (List.mem_cons_of_mem c hq)
      simp only [splitOnChar, if_neg hc, ih hcs]

/-! ## The converter never raises -/

theorem process_user_group_id_ok (n : SlackNames) (m : List Char)
    (h : 2 ≤ (splitOnChar '^' m).length) :
    ∃ s, process_user_group_id n m = Except.ok s := by
  unfold process_user_group_id
  rcases hg : (splitOnChar '^' m)[1]? with _ | g
  · rw [List.getElem?_eq_none_iff] at hg
    omega
  · exact ⟨_, rfl⟩

theorem process_special_mention_ok (m : List Char) :
    ∃ s, process_special_mention m = Except.ok s := by
  unfold process_special_mention
  split
  · exact ⟨_, rfl⟩
  split
  · exact ⟨_, rfl⟩
  split
  · exact ⟨_, rfl⟩
  split
  · next hdate =>
      obtain ⟨t, rfl⟩ := leadsWith_iff_append.mp hdate
      have hlen := splitOnChar_length_ge_two '^' ("!date^".toList ++ t) (by simp)
      rcases hg : (splitOnChar '^' ("!date^".toList ++ t))[1]? with _ | g
      · rw [List.getElem?_eq_none_iff] at hg
        omega
      · exact ⟨_, rfl⟩
  · exact ⟨_, rfl⟩

theorem process_url_ok (m : List Char) : ∃ s, process_url m = Except.ok s := by
  have hpos := splitOnChar_length_pos '|' m
  unfold process_url
  split
  · next hlen =>
      rcases hs : splitOnChar '|' m with _ | ⟨x, _ | ⟨y, rest⟩⟩
      · rw [hs] at hlen; simp at hlen
      · rw [hs] at hlen; simp at hlen
      · exact ⟨'[' :: pyStrip y ++ ']' :: '(' :: pyStrip x ++ [')'], by simp⟩
  · rcases hs : splitOnChar '|' m with _ | ⟨x, rest⟩
    · simp [hs] at hpos
    · exact ⟨'[' :: pyStrip x ++ ']' :: '(' :: pyStrip x ++ [')'], by simp⟩

theorem replace_markdown_in_text_ok (n : SlackNames) (m : List Char) :
    ∃ s, replace_markdown_in_text n m = Except.ok s := by
  unfold replace_markdown_in_text
  split
  · exact ⟨_, rfl⟩
  split
  · exact ⟨_, rfl⟩
  split
  · next h =>
      obtain ⟨t, rfl⟩ := leadsWith_iff_append.mp h
      exact process_user_group_id_ok n _
        (splitOnChar_length_ge_two '^' ("!subteam^".toList ++ t) (by simp))
  split
  · exact process_special_mention_ok m
  · exact process_url_ok m

theorem subAngleGo_ok (f : List Char → Except String (List Char))
    (hf : ∀ c, ∃ s, f c = Except.ok s) :
    ∀ fuel l, ∃ s, subAngleGo f fuel l = Except.ok s := by
  intro fuel
  induction fuel with
  | zero => intro l; cases l <;> exact ⟨_, rfl⟩
  | succ k ih =>
      intro l
      cases l with
      | nil => exact ⟨_, rfl⟩
      | cons c cs =>
          simp only [subAngleGo]
          by_cases hc : c = '<'
          · simp only [if_pos hc]
            cases hfc : findCloser cs with
            | none =>
                obtain ⟨s, hs⟩ := ih cs
                exact ⟨_, by rw [hs, ok_bind]⟩
            | some p =>
                obtain ⟨r, hr⟩ := hf p.1
                obtain ⟨s, hs⟩ := ih p.2
                refine ⟨r ++ s, ?_⟩
                show (do
                  let rep ← f p.1
                  let tail ← subAngleGo f k p.2
                  Except.ok (rep ++ tail)) = Except.ok (r ++ s)
                rw [hr, ok_bind, hs, ok_bind]
          · simp only [if_neg hc]
            obtain ⟨s, hs⟩ := ih cs
            exact ⟨_, by rw [hs, ok_bind]⟩

theorem convert_slack_text_ok (n : SlackNames) (text : String) (b : Bool) :
    ∃ s, convert_slack_text n text b = Except.ok s := by
  unfold convert_slack_text
  cases b with
  | false => exact ⟨text, rfl⟩
  | true =>
      obtain ⟨s, hs⟩ := subAngleGo_ok (replace_markdown_in_text n)
        (replace_markdown_in_text_ok n) text.toList.length text.toList
      refine ⟨String.mk (subBlockquote (codePass (italicPass (subStar s)))), ?_⟩
      show (do
        let r1 ← subAngle n text.toList
        let r2 := subStar r1
        let r3 := italicPass r2
        let r4 := codePass r3
        let r5 := subBlockquote r4
        Except.ok (String.mk r5)) = _
      rw [subAngle, hs, ok_bind]

/-! ## Inversion of `format_message` -/

theorem format_message_eq_ok {n : SlackNames} {cfg : LocaleConfig} {msg : RawMessage}
    {m : Message} (h : format_message n cfg msg = Except.ok m) :
    ∃ ts raw,
      msg.ts = some ts ∧
      msg.text = some raw ∧
      m.ts = ts ∧
      m.thread_ts = msg.thread_ts ∧
      m.replies = [] ∧
      m.user = resolve_author n msg ∧
      m.is_bot = msg.bot_id.isSome ∧
      format_slack_ts_for_display ts = Except.ok m.ts_display ∧
      format_thread_ts_display msg.thread_ts = Except.ok m.thread_ts_display ∧
      transform_text n raw (msg.mrkdwn.getD true) = Except.ok m.text := by
  unfold format_message at h
  simp only [bind_eq_ok, require_eq_ok] at h
  obtain ⟨ts, hts, dsp, hdsp, tdsp, htdsp, raw, hraw, txt, htxt, reac, hreac,
    fil, hfil, att, hatt, hm⟩ := h
  simp only [Except.ok.injEq] at hm
  subst hm
  exact ⟨ts, raw, hts, hraw, rfl, rfl, rfl, rfl, rfl, hdsp, htdsp, htxt⟩

/-! ## Concrete fixtures used by witnesses and counterexamples -/

/-- A small warmed name map: users `U1 ↦ Alice`, `U2 ↦ Bob`; channel
`C1 ↦ general`; no usergroups. -/
def demoNames : SlackNames :=
  ⟨fun id => if id = "U1" then some "Alice" else if id = "U2" then some "Bob" else none,
   fun id => if id = "C1" then some "general" else none,
   fun _ => none⟩

/-- A configured output locale/timezone (UTC+1, German). -/
def demoCfg : LocaleConfig := ⟨60, "de_DE"⟩

/-- A different configured output locale/timezone (UTC-5, English). -/
def demoCfg2 : LocaleConfig := ⟨-300, "en_US"⟩

/-- The C1 scenario's top-level message. -/
def c1_parent_raw : RawMessage :=
  { ts := some "100", user := some "U1", text := some "<@U1> says *hi*",
    thread_ts := some "100" }

/-- The C1 scenario's thread reply. -/
def c1_reply_raw : RawMessage :=
  { ts := some "101", user := some "U2", text := some "ok" }

/-- The C1 scenario's remote source: one top-level message, whose thread
contains the parent itself followed by the reply (a Slack
`conversations_replies` call returns the parent as the first entry). -/
def c1_env : SlackEnv :=
  ⟨demoNames, [c1_parent_raw],
   fun t => if t = "100" then [c1_parent_raw, c1_reply_raw] else []⟩

/-! ## Claims -/

/-- Claim C1. End-to-end export/render scenario: for input channel `C1`
named `general` with one top-level message
`{ts:"100", user:"U1", text:"<@U1> says *hi*", thread_ts:"100"}`, one
thread reply `{ts:"101", user:"U2", text:"ok"}`, and user map
`{U1: Alice, U2: Bob}`, running the orchestrator and then the Markdown
renderer produces a document with a level-1 heading `general`, a
level-2 heading for Alice with body `@Alice says **hi**`, and a nested
level-3 heading for Bob with body `ok`. -/
theorem c1_end_to_end_export_render :
    (fetch_and_format_channel_data c1_env demoCfg "C1").map format_as_markdown =
      Except.ok ("# general\n\n## Alice (1970-01-01 00:01:40 GMT)\n@Alice says **hi**\n\n\n" ++
        "### Bob (1970-01-01 00:01:41 GMT)\nok\n\n\n") := by
  rfl

/-- Claim C6. Converter failure policy: a bracketed token whose content
has no recognized prefix (`@U`, `@W`, `#C`, `!`) and is not URL-shaped
(no `|` separator) falls through to the link-token branch and is
emitted as `[text](text)` (the source strips surrounding whitespace
from the segment, cf. `_process_url`); and for every input string the
converter never raises — it always produces a best-effort output. -/
theorem c6_converter_failure_policy (n : SlackNames) (m : List Char)
    (h1 : leadsWith "@U".toList m = false) (h2 : leadsWith "@W".toList m = false)
    (h3 : leadsWith "#C".toList m = false) (h4 : leadsWith "!".toList m = false)
    (h5 : '|' ∉ m) :
    replace_markdown_in_text n m =
      Except.ok ('[' :: pyStrip m ++ ']' :: '(' :: pyStrip m ++ [')']) ∧
    (∀ (text : String) (b : Bool), ∃ s, convert_slack_text n text b = Except.ok s) := by
  constructor
  · have hsub : leadsWith "!subteam^".toList m = false := by
      cases hq : leadsWith "!subteam^".toList m
      · rfl
      · obtain ⟨t, rfl⟩ := leadsWith_iff_append.mp hq
        simp [leadsWith] at h4
    unfold replace_markdown_in_text
    rw [h1, h2, h3, h4, hsub]
    simp only [Bool.or_self, Bool.false_eq_true, if_false]
    unfold process_url
    rw [splitOnChar_of_not_mem '|' m h5]
    simp
  · exact fun text b => convert_slack_text_ok n text b

/-- Witness for C6 at the concrete malformed token `< broken token >`
(no recognized prefix, no pipe): the output wraps the stripped content
as `[broken token](broken token)`. -/
theorem c6_converter_failure_policy_witness :
    replace_markdown_in_text demoNames " broken token ".toList =
      Except.ok ('[' :: pyStrip " broken token ".toList ++ ']' ::
        '(' :: pyStrip " broken token ".toList ++ [')']) ∧
    (∀ (text : String) (b : Bool), ∃ s, convert_slack_text demoNames text b = Except.ok s) :=
  c6_converter_failure_policy demoNames " broken token ".toList
    (by decide) (by decide) (by decide) (by decide) (by decide)

/-- Claim C10. Multi-pipe link tokens lose data: when the bracket content
splits on `|` into three or more segments, `_process_url` emits
`[a](a)` where `a` is the first segment stripped of surrounding
whitespace, discarding the rest; with exactly two segments it emits
`[text](url)`; with no pipe it emits `[url](url)`. -/
theorem c10_multi_pipe_link_tokens (m : List Char) :
    (∀ a b c rest, splitOnChar '|' m = a :: b :: c :: rest →
      process_url m = Except.ok ('[' :: pyStrip a ++ ']' :: '(' :: pyStrip a ++ [')'])) ∧
    (∀ u t, splitOnChar '|' m = [u, t] →
      process_url m = Except.ok ('[' :: pyStrip t ++ ']' :: '(' :: pyStrip u ++ [')'])) ∧
    ('|' ∉ m →
      process_url m = Except.ok ('[' :: pyStrip m ++ ']' :: '(' :: pyStrip m ++ [')'])) := by
  refine ⟨?_, ?_, ?_⟩
  · intro a b c rest hs
    unfold process_url
    rw [hs]
    simp
  · intro u t hs
    unfold process_url
    rw [hs]
    simp
  · intro h
    unfold process_url
    rw [splitOnChar_of_not_mem '|' m h]
    simp

/-- Witness for C10 at `a|b|c`, `u| t` and `plain`: the three shapes
produce `[a](a)`, `[t](u)` and `[plain](plain)`. -/
theorem c10_multi_pipe_link_tokens_witness :
    splitOnChar '|' "a|b|c".toList = ["a".toList, "b".toList, "c".toList] ∧
    process_url "a|b|c".toList = Except.ok "[a](a)".toList ∧
    process_url "plain".toList = Except.ok "[plain](plain)".toList := by
  refine ⟨by decide, ?_, ?_⟩
  · exact (c10_multi_pipe_link_tokens "a|b|c".toList).1 "a".toList "b".toList "c".toList []
      (by decide)
  · exact (c10_multi_pipe_link_tokens "plain".toList).2.2 (by decide)

/-- Claim C9. Markup-flag default: when the raw message has no `mrkdwn`
field the formatter treats the text as markup (the flag defaults to
true) and applies the full conversion; the unchanged-text early-return
of `convert_slack_text` is taken exactly when the source supplies
`mrkdwn: false`. -/
theorem c9_mrkdwn_default (n : SlackNames) (cfg : LocaleConfig) (msg : RawMessage)
    (m : Message) (h : format_message n cfg msg = Except.ok m) :
    (msg.mrkdwn.getD true = false ↔ msg.mrkdwn = some false) ∧
    (∃ raw, msg.text = some raw ∧
      transform_text n raw (msg.mrkdwn.getD true) = Except.ok m.text ∧
      (msg.mrkdwn = none → convert_slack_text n raw true = Except.ok m.text) ∧
      (msg.mrkdwn = some false → m.text = raw)) := by
  obtain ⟨ts, raw, hts, hraw, _, _, _, _, _, _, _, htxt⟩ := format_message_eq_ok h
  constructor
  · cases hmd : msg.mrkdwn with
    | none => simp
    | some b => cases b <;> simp
  · refine ⟨raw, hraw, htxt, ?_, ?_⟩
    · intro hmd
      rw [hmd] at htxt
      exact htxt
    · intro hmd
      rw [hmd] at htxt
      simp only [Option.getD_some] at htxt
      have hid : transform_text n raw false = Except.ok raw := rfl
      rw [hid] at htxt
      exact (Except.ok.injEq _ _).mp htxt.symm

/-- Witness for C9: a message without `mrkdwn` gets the full conversion
(`*hi*` becomes `**hi**`), while `mrkdwn: false` leaves it unchanged. -/
theorem c9_mrkdwn_default_witness :
    (format_message demoNames demoCfg
        { ts := some "100", user := some "U1", text := some "*hi*" } =
      Except.ok (Message.mk (some ⟨"U1", "Alice"⟩) "100" none
        "1970-01-01 00:01:40 GMT" none "**hi**" [] [] [] none false [])) ∧
    ((none : Option Bool).getD true = false ↔ (none : Option Bool) = some false) :=
  ⟨by rfl,
   (c9_mrkdwn_default demoNames demoCfg
      { ts := some "100", user := some "U1", text := some "*hi*" }
      (Message.mk (some ⟨"U1", "Alice"⟩) "100" none
        "1970-01-01 00:01:40 GMT" none "**hi**" [] [] [] none false [])
      (by rfl)).1⟩

/-- Success characterization of the display formatter: it succeeds
exactly on parseable timestamps and produces the fixed-format UTC
string. -/
theorem format_slack_ts_for_display_eq_ok {t d : String}
    (h : format_slack_ts_for_display t = Except.ok d) :
    ∃ k, parse_ts t = some k ∧ d = strftimeGmt (utcCivilOfEpoch k) := by
  unfold format_slack_ts_for_display at h
  cases hp : parse_ts t with
  | none => rw [hp] at h; exact absurd h (by simp)
  | some k =>
      rw [hp] at h
      exact ⟨k, rfl, ((Except.ok.injEq _ _).mp h).symm⟩

/-- Claim C8. Timestamp display formatting: per-message formatting
computes `ts_display` (and `thread_ts_display` when `thread_ts` is
present and non-empty) as the fixed-format UTC string
`YYYY-MM-DD HH:MM:SS GMT` derived from the raw epoch-seconds timestamp
string, and these strings are identical across any two runs that differ
only in the configured output locale/timezone. -/
theorem c8_ts_display_utc (n : SlackNames) (cfg cfg2 : LocaleConfig)
    (msg : RawMessage) (m m2 : Message)
    (h : format_message n cfg msg = Except.ok m)
    (h2 : format_message n cfg2 msg = Except.ok m2) :
    m.ts_display = m2.ts_display ∧
    m.thread_ts_display = m2.thread_ts_display ∧
    (∃ k, parse_ts m.ts = some k ∧ m.ts_display = strftimeGmt (utcCivilOfEpoch k)) ∧
    (∀ t, m.thread_ts = some t → t ≠ "" →
      ∃ k2, parse_ts t = some k2 ∧
        m.thread_ts_display = some (strftimeGmt (utcCivilOfEpoch k2))) := by
  obtain ⟨ts, raw, hts, _, htseq, httseq, _, _, _, hdsp, htdsp, _⟩ :=
    format_message_eq_ok h
  obtain ⟨ts_b, raw_b, hts_b, _, htseq_b, httseq_b, _, _, _, hdsp_b, htdsp_b, _⟩ :=
    format_message_eq_ok h2
  have hts_same : ts_b = ts := by
    rw [hts] at hts_b
    exact (Option.some.injEq _ _).mp hts_b.symm
  subst hts_same
  refine ⟨?_, ?_, ?_, ?_⟩
  · rw [hdsp] at hdsp_b
    exact (Except.ok.injEq _ _).mp hdsp_b
  · rw [htdsp] at htdsp_b
    exact (Except.ok.injEq _ _).mp htdsp_b
  · obtain ⟨k, hk, hd⟩ := format_slack_ts_for_display_eq_ok hdsp
    exact ⟨k, by rw [htseq]; exact hk, hd⟩
  · intro t hat hne
    rw [httseq] at hat
    rw [hat] at htdsp
    unfold format_thread_ts_display at htdsp
    replace htdsp : (if t ≠ "" then Except.map some (format_slack_ts_for_display t)
        else Except.ok none) = Except.ok m.thread_ts_display := htdsp
    rw [if_pos hne] at htdsp
    cases hf : format_slack_ts_for_display t with
    | error e => rw [hf] at htdsp; exact absurd htdsp (by simp [Except.map])
    | ok d =>
        rw [hf] at htdsp
        obtain ⟨k2, hk2, hd2⟩ := format_slack_ts_for_display_eq_ok hf
        refine ⟨k2, hk2, ?_⟩
        have : (Except.ok (some d) : Except String (Option String)) =
            Except.ok m.thread_ts_display := htdsp
        rw [← (Except.ok.injEq _ _).mp this, hd2]

/-- Witness for C8: the same raw message formatted under two different
locale/timezone configurations yields the same UTC display strings
(`1970-01-01 00:01:41 GMT` for ts `101`, parent display for `100`). -/
theorem c8_ts_display_utc_witness :
    format_message demoNames demoCfg
        { ts := some "101", user := some "U2", text := some "ok",
          thread_ts := some "100" } =
      Except.ok (Message.mk (some ⟨"U2", "Bob"⟩) "101" (some "100")
        "1970-01-01 00:01:41 GMT" (some "1970-01-01 00:01:40 GMT") "ok"
        [] [] [] none false []) ∧
    ((Message.mk (some ⟨"U2", "Bob"⟩) "101" (some "100")
        "1970-01-01 00:01:41 GMT" (some "1970-01-01 00:01:40 GMT") "ok"
        [] [] [] none false []).ts_display =
      (Message.mk (some ⟨"U2", "Bob"⟩) "101" (some "100")
        "1970-01-01 00:01:41 GMT" (some "1970-01-01 00:01:40 GMT") "ok"
        [] [] [] none false []).ts_display) :=
  ⟨by rfl,
   (c8_ts_display_utc demoNames demoCfg demoCfg2
      { ts := some "101", user := some "U2", text := some "ok",
        thread_ts := some "100" }
      (Message.mk (some ⟨"U2", "Bob"⟩) "101" (some "100")
        "1970-01-01 00:01:41 GMT" (some "1970-01-01 00:01:40 GMT") "ok"
        [] [] [] none false [])
      (Message.mk (some ⟨"U2", "Bob"⟩) "101" (some "100")
        "1970-01-01 00:01:41 GMT" (some "1970-01-01 00:01:40 GMT") "ok"
        [] [] [] none false [])
      (by rfl) (by rfl)).1⟩

/-- Claim C4, counterexample. The claim's fallback table includes the
entity kind `bot` with fallback `bot_<id>`; but the author-resolution
code path of `_format_message` (the claim's own cited lines) resolves a
message whose only author field is an unmapped `bot_id` `B9` to the
display name `unknown_user_B9`, not `bot_B9`. -/
theorem c4_fallback_names_counterexample :
    (format_message demoNames demoCfg
        { bot_id := some "B9", ts := some "100", text := some "" }).map
      (fun m => m.user.map User.name) = Except.ok (some "unknown_user_B9") ∧
    (some "unknown_user_B9" : Option String) ≠ some "bot_B9" :=
  ⟨by rfl, by decide⟩

/-- Claim C4, amended. Unresolved-name fallbacks as the code implements
them: for the converter's entity kinds (user, channel, usergroup) an id
missing from the name map resolves to `<kind>_<id>` — never empty,
never an error — and `convert("<@U9>", true)` gives `@user_U9` for
unmapped `U9`; the message-author fallback (covering both users and
bots, since `bot_id` feeds the same lookup) is `unknown_user_<id>`
instead. -/
theorem c4_fallback_names (n : SlackNames) (cfg : LocaleConfig) (id : String) :
    (n.userNames id = none →
      String.mk (process_user_id n id.toList) = "@user_" ++ id) ∧
    (n.channelNames id = none →
      String.mk (process_channel_id n id.toList) = "#channel_" ++ id) ∧
    (n.usergroupNames id = none → '^' ∉ id.toList →
      process_user_group_id n ("!subteam^" ++ id).toList =
        Except.ok ("@usergroup_" ++ id).toList) ∧
    (n.userNames "U9" = none →
      convert_slack_text n "<@U9>" true = Except.ok "@user_U9") ∧
    ("@user_" ++ id ≠ "" ∧ "#channel_" ++ id ≠ "" ∧ "@usergroup_" ++ id ≠ "") ∧
    (∀ (msg : RawMessage) (m : Message), n.userNames id = none → id ≠ "" →
      pyOrStr msg.user msg.bot_id = some id →
      format_message n cfg msg = Except.ok m →
      m.user = some ⟨id, "unknown_user_" ++ id⟩) := by
  refine ⟨?_, ?_, ?_, ?_, ⟨?_, ?_, ?_⟩, ?_⟩
  · intro h
    simp [process_user_id, mkToList, h]
    cases id
    simp [String.mk]
    rfl
  · intro h
    simp [process_channel_id, mkToList, h]
    cases id
    simp [String.mk]
    rfl
  · intro h hc
    have hsplit : ("!subteam^" ++ id).toList = "!subteam^".toList ++ id.toList := by
      cases id
      rfl
    unfold process_user_group_id
    rw [hsplit]
    have h0 : splitOnChar '^' id.data = [id.data] :=
      splitOnChar_of_not_mem '^' id.data hc
    have h1 : splitOnChar '^' ("!subteam^".toList ++ id.toList) =
        ["!subteam".toList, id.toList] := by
      simp [splitOnChar, h0, String.toList]
    rw [h1]
    simp [mkToList, h]
  · intro h
    simp [convert_slack_text, subAngle, subAngleGo, findCloser, replace_markdown_in_text,
      leadsWith, process_user_id, h]
    rfl
  · intro hq
    have hlen := congrArg String.length hq
    rw [String.length_append] at hlen
    have h6 : ("@user_" : String).length = 6 := rfl
    have h0 : ("" : String).length = 0 := rfl
    rw [h6, h0] at hlen
    omega
  · intro hq
    have hlen := congrArg String.length hq
    rw [String.length_append] at hlen
    have h9 : ("#channel_" : String).length = 9 := rfl
    have h0 : ("" : String).length = 0 := rfl
    rw [h9, h0] at hlen
    omega
  · intro hq
    have hlen := congrArg String.length hq
    rw [String.length_append] at hlen
    have h11 : ("@usergroup_" : String).length = 11 := rfl
    have h0 : ("" : String).length = 0 := rfl
    rw [h11, h0] at hlen
    omega
  · intro msg m h hne hor hok
    obtain ⟨ts, raw, hts, hraw, hmts, hmtt, hrep, huser, hbot, hdsp, htdsp, htxt⟩ :=
      format_message_eq_ok hok
    rw [huser]
    unfold resolve_author
    rw [hor]
    simp [hne, h]

/-- Witness for C4 at the unmapped ids `X9` and `U9` under the demo
name map: `@user_X9`, `#channel_X9`, `@usergroup_X9` and the converter
example `@user_U9`. -/
theorem c4_fallback_names_witness :
    String.mk (process_user_id demoNames "X9".toList) = "@user_" ++ "X9" ∧
    String.mk (process_channel_id demoNames "X9".toList) = "#channel_" ++ "X9" ∧
    process_user_group_id demoNames ("!subteam^" ++ "X9").toList =
      Except.ok ("@usergroup_" ++ "X9").toList ∧
    convert_slack_text demoNames "<@U9>" true = Except.ok "@user_U9" :=
  ⟨(c4_fallback_names demoNames demoCfg "X9").1 (by decide),
   (c4_fallback_names demoNames demoCfg "X9").2.1 (by decide),
   (c4_fallback_names demoNames demoCfg "X9").2.2.1 (by decide) (by decide),
   (c4_fallback_names demoNames demoCfg "X9").2.2.2.1 (by decide)⟩

/-- The raw message of the C3 scenario that is missing its required
`ts` field. -/
def c3_malformed_raw : RawMessage :=
  { user := some "U1", text := some "hello" }

/-- The C3 scenario's remote source: one healthy message followed by
one malformed message (no `ts`). -/
def c3_env : SlackEnv :=
  ⟨demoNames, [c1_reply_raw, c3_malformed_raw], fun _ => []⟩

/-- Claim C3, counterexample. The claim says a single raw message with a
missing required `ts` is dropped with a diagnostic while the export
still returns a `ChannelExportData` for the healthy messages.  In the
code, `_format_message` raises `KeyError` and the surrounding
`try/except` in `fetch_and_format_channel_data` logs and **re-raises**,
so the whole export aborts: on a channel with one healthy and one
malformed message the orchestrator returns the error, not a
`ChannelExportData`. -/
theorem c3_malformed_aborts_counterexample :
    fetch_and_format_channel_data c3_env demoCfg "C1" =
      Except.error "KeyError: ts" := by
  rfl

/-- A helper: `mapM` fails whenever some element fails. -/
theorem mapM_error_of_mem {α β : Type} {f : α → Except String β} {l : List α}
    {x : α} (hx : x ∈ l) (hf : ∀ y, f x ≠ Except.ok y) :
    ∃ e, l.mapM f = Except.error e := by
  induction l with
  | nil => simp at hx
  | cons a rest ih =>
      rw [List.mapM_cons]
      rcases List.mem_cons.mp hx with rfl | hmem
      · cases hfa : f x with
        | error e => exact ⟨e, rfl⟩
        | ok b => exact absurd hfa (hf b)
      · cases hfa : f a with
        | error e => exact ⟨e, rfl⟩
        | ok b =>
            obtain ⟨e, he⟩ := ih hmem
            refine ⟨e, ?_⟩
            rw [ok_bind, he]
            rfl

/-- Models `format_message` fails on a message without `ts`. -/
theorem format_message_error_of_no_ts {n : SlackNames} {cfg : LocaleConfig}
    {msg : RawMessage} (h : msg.ts = none) :
    ∀ m, format_message n cfg msg ≠ Except.ok m := by
  intro m hok
  obtain ⟨ts, _, hts, _⟩ := format_message_eq_ok hok
  rw [h] at hts
  exact Option.noConfusion hts

/-- Claim C3, amended. A raw top-level message missing the required `ts`
field makes the per-message formatting raise; the orchestrator's
`except` handler logs and re-raises, so the entire export fails with an
error — there is no per-item drop-and-continue recovery. -/
theorem c3_malformed_aborts (E : SlackEnv) (cfg : LocaleConfig) (cid : String)
    (msg : RawMessage) (hmem : msg ∈ E.fetchTopLevel) (hts : msg.ts = none) :
    ∃ e, fetch_and_format_channel_data E cfg cid = Except.error e := by
  unfold fetch_and_format_channel_data
  dsimp only
  cases hthr : fetch_threads_by_ts E.fetchThread E.fetchTopLevel with
  | error e => exact ⟨e, rfl⟩
  | ok T =>
      obtain ⟨e, he⟩ :=
        mapM_error_of_mem (f := format_message E.names cfg) hmem
          (format_message_error_of_no_ts hts)
      refine ⟨e, ?_⟩
      rw [ok_bind, he]
      rfl

/-- Witness for C3 (amended) at the concrete two-message channel whose
second message has no `ts`: the export returns an error. -/
theorem c3_malformed_aborts_witness :
    c3_malformed_raw ∈ c3_env.fetchTopLevel ∧
    c3_malformed_raw.ts = none ∧
    ∃ e, fetch_and_format_channel_data c3_env demoCfg "C1" = Except.error e :=
  ⟨by decide, rfl,
   c3_malformed_aborts c3_env demoCfg "C1" c3_malformed_raw (by decide) rfl⟩

/-- The loop invariant of `_fetch_pages` for a positive row cap `m`:
the result is the initial rows plus the requested follow-up pages
concatenated in order; every follow-up request was issued while the
accumulated count was still below `m`; and the loop stops either
because the pages ran out or because the cap was reached. -/
theorem fetch_pages_go_spec {α : Type} (m : Nat) (hm : 0 < m) :
    ∀ (rest : List (List α)) (rows : List α),
      (fetch_pages_go (some m) rows rest).1 =
        rows ++ (List.take (fetch_pages_go (some m) rows rest).2 rest).join ∧
      (∀ j, j < (fetch_pages_go (some m) rows rest).2 →
        (rows ++ (List.take j rest).join).length < m) ∧
      ((fetch_pages_go (some m) rows rest).2 = rest.length ∨
        m ≤ (fetch_pages_go (some m) rows rest).1.length) := by
  intro rest
  induction rest with
  | nil =>
      intro rows
      refine ⟨by simp [fetch_pages_go], ?_, Or.inl rfl⟩
      intro j hj
      simp [fetch_pages_go] at hj
  | cons p rest ih =>
      intro rows
      simp only [fetch_pages_go]
      have hm0 : ¬ m = 0 := by omega
      by_cases hlt : rows.length < m
      · rw [if_pos (by simp [hm0, hlt])]
        dsimp only
        obtain ⟨ha, hb, hc⟩ := ih (rows ++ p)
        refine ⟨?_, ?_, ?_⟩
        · simpa [List.append_assoc] using ha
        · intro j hj
          cases j with
          | zero => simpa using hlt
          | succ j2 =>
              have := hb j2 (by omega)
              simpa [List.append_assoc] using this
        · rcases hc with hc | hc
          · exact Or.inl (by simp [hc])
          · exact Or.inr hc
      · rw [if_neg (by simp [hm0, hlt])]
        dsimp only
        refine ⟨by simp, ?_, Or.inr (by omega)⟩
        intro j hj
        simp at hj

/-- Claim C5, counterexample and claim instance. With `maxMessages = 5`
and four pages of five messages, exactly the first page (5 messages) is
returned and only one request is made — the claim's own example holds.
But the cap does not truncate: with `maxMessages = 3` over the same
pages the fetch returns all 5 rows of the first page, more than the
cap, refuting "for every maxMessages bound, the fetch returns at most
maxMessages messages". -/
theorem c5_row_cap_counterexample :
    fetch_pages (some 5) [1, 2, 3, 4, 5]
        [[6, 7, 8, 9, 10], [11, 12, 13, 14, 15], [16, 17, 18, 19, 20]] =
      [1, 2, 3, 4, 5] ∧
    fetch_pages_requested (some 5) [1, 2, 3, 4, 5]
        [[6, 7, 8, 9, 10], [11, 12, 13, 14, 15], [16, 17, 18, 19, 20]] = 1 ∧
    (fetch_pages (some 3) [1, 2, 3, 4, 5]
        [[6, 7, 8, 9, 10], [11, 12, 13, 14, 15], [16, 17, 18, 19, 20]]).length = 5 ∧
    ¬ (fetch_pages (some 3) [1, 2, 3, 4, 5]
        [[6, 7, 8, 9, 10], [11, 12, 13, 14, 15], [16, 17, 18, 19, 20]]).length ≤ 3 := by
  refine ⟨rfl, rfl, rfl, by decide⟩

/-- Claim C5, amended. Row-cap behaviour of `_fetch_pages` for a
positive `maxMessages` bound: the returned rows are the concatenation
of the requested pages in source order (the first page plus follow-ups);
a follow-up page is requested only while the accumulated row count is
below the bound (so no further page is requested once the cap is
reached); and the loop ends with either all pages consumed or the cap
reached.  The rows are not truncated, so the result can exceed the
bound by at most the final page's overshoot. -/
theorem c5_row_cap (α : Type) (m : Nat) (first : List α) (rest : List (List α))
    (hm : 0 < m) :
    fetch_pages (some m) first rest =
      (List.take (fetch_pages_requested (some m) first rest) (first :: rest)).join ∧
    (∀ j, 0 < j → j < fetch_pages_requested (some m) first rest →
      ((List.take j (first :: rest)).join).length < m) ∧
    (fetch_pages_requested (some m) first rest = (first :: rest).length ∨
      m ≤ (fetch_pages (some m) first rest).length) := by
  obtain ⟨ha, hb, hc⟩ := fetch_pages_go_spec m hm rest first
  refine ⟨?_, ?_, ?_⟩
  · rw [fetch_pages, fetch_pages_requested]
    simpa using ha
  · intro j hj0 hjlt
    cases j with
    | zero => omega
    | succ j2 =>
        rw [fetch_pages_requested] at hjlt
        have := hb j2 (by omega)
        simpa using this
  · rw [fetch_pages_requested, fetch_pages]
    rcases hc with hc | hc
    · exact Or.inl (by simp [hc])
    · exact Or.inr hc

/-- Witness for C5 (amended) at the claim's instance (`maxMessages = 5`,
four pages of five). -/
theorem c5_row_cap_witness :
    (0 : Nat) < 5 ∧
    (fetch_pages (some 5) [1, 2, 3, 4, 5]
        [[6, 7, 8, 9, 10], [11, 12, 13, 14, 15], [16, 17, 18, 19, 20]] =
      (List.take (fetch_pages_requested (some 5) [1, 2, 3, 4, 5]
          [[6, 7, 8, 9, 10], [11, 12, 13, 14, 15], [16, 17, 18, 19, 20]])
        ([1, 2, 3, 4, 5] :: [[6, 7, 8, 9, 10], [11, 12, 13, 14, 15],
          [16, 17, 18, 19, 20]])).join ∧
    (∀ j, 0 < j → j < fetch_pages_requested (some 5) [1, 2, 3, 4, 5]
        [[6, 7, 8, 9, 10], [11, 12, 13, 14, 15], [16, 17, 18, 19, 20]] →
      ((List.take j ([1, 2, 3, 4, 5] :: [[6, 7, 8, 9, 10], [11, 12, 13, 14, 15],
          [16, 17, 18, 19, 20]])).join).length < 5) ∧
    (fetch_pages_requested (some 5) [1, 2, 3, 4, 5]
        [[6, 7, 8, 9, 10], [11, 12, 13, 14, 15], [16, 17, 18, 19, 20]] =
      ([1, 2, 3, 4, 5] :: [[6, 7, 8, 9, 10], [11, 12, 13, 14, 15],
        [16, 17, 18, 19, 20]]).length ∨
      5 ≤ (fetch_pages (some 5) [1, 2, 3, 4, 5]
        [[6, 7, 8, 9, 10], [11, 12, 13, 14, 15], [16, 17, 18, 19, 20]]).length)) :=
  ⟨by decide,
   c5_row_cap Nat 5 [1, 2, 3, 4, 5]
     [[6, 7, 8, 9, 10], [11, 12, 13, 14, 15], [16, 17, 18, 19, 20]] (by decide)⟩

/-- Models `Message.addReplies` only changes the `replies` field. -/
theorem addReplies_ts (m : Message) (rs : List Message) :
    (m.addReplies rs).ts = m.ts := by
  cases m
  rfl

/-- The merge's append step never changes which timestamps occur among
the top-level messages. -/
theorem appendRepliesToLast_map_ts (msgs : List Message) (k : String)
    (rs : List Message) :
    (appendRepliesToLast msgs k rs).map Message.ts = msgs.map Message.ts := by
  induction msgs with
  | nil => rfl
  | cons m rest ih =>
      simp only [appendRepliesToLast]
      by_cases h1 : rest.any (fun m2 => m2.ts == k)
      · simp [h1, ih]
      · by_cases h2 : m.ts == k
        · simp [h1, h2, addReplies_ts]
        · simp [h1, h2]

/-- Claim C7. Orphan-thread dropping: a fetched thread whose `thread_ts`
is not the `ts` of any formatted top-level message contributes nothing
to the merge — removing that thread from the fetched-thread sequence
(wherever it occurs) leaves the merge's result unchanged, so no reply
of it is attached anywhere and none is promoted to the top level. -/
theorem c7_orphan_threads_dropped (n : SlackNames) (cfg : LocaleConfig)
    (msgs : List Message) (pre post : List (String × List RawMessage))
    (k : String) (raws : List RawMessage)
    (h : ∀ m ∈ msgs, m.ts ≠ k) :
    merge_threads n cfg msgs (pre ++ (k, raws) :: post) =
      merge_threads n cfg msgs (pre ++ post) := by
  induction pre generalizing msgs with
  | nil =>
      simp only [List.nil_append, merge_threads]
      have hany : msgs.any (fun m => m.ts == k) = false := by
        rw [List.any_eq_false]
        intro m hm
        simpa using h m hm
      rw [if_neg (by simp [hany])]
  | cons q pre ih =>
      obtain ⟨k2, raws2⟩ := q
      simp only [List.cons_append, merge_threads]
      by_cases hany : msgs.any (fun m => m.ts == k2) = true
      · rw [if_pos (by simp [hany]), if_pos (by simp [hany])]
        cases hfmt : format_thread_replies n cfg k2 raws2 with
        | error e => rfl
        | ok rs =>
            rw [ok_bind, ok_bind]
            apply ih
            intro m hm
            have : m.ts ∈ (appendRepliesToLast msgs k2 rs).map Message.ts :=
              List.mem_map_of_mem Message.ts hm
            rw [appendRepliesToLast_map_ts] at this
            obtain ⟨m0, hm0, hts0⟩ := List.mem_map.mp this
            rw [← hts0]
            exact h m0 hm0
      · rw [if_neg (by simpa using hany), if_neg (by simpa using hany)]
        exact ih msgs h

/-- Witness for C7: an orphan thread keyed `999` (no top-level message
has that `ts`) between two other threads changes nothing. -/
theorem c7_orphan_threads_dropped_witness :
    (∀ m ∈ [Message.mk none "1" none "d" none "x" [] [] [] none false []],
      m.ts ≠ "999") ∧
    merge_threads demoNames demoCfg
        [Message.mk none "1" none "d" none "x" [] [] [] none false []]
        ([("1", [c1_reply_raw])] ++ ("999", [c1_reply_raw]) :: []) =
      merge_threads demoNames demoCfg
        [Message.mk none "1" none "d" none "x" [] [] [] none false []]
        ([("1", [c1_reply_raw])] ++ []) :=
  ⟨by intro m hm; simp at hm; rw [hm]; decide,
   c7_orphan_threads_dropped demoNames demoCfg
     [Message.mk none "1" none "d" none "x" [] [] [] none false []]
     [("1", [c1_reply_raw])] [] "999" [c1_reply_raw]
     (by intro m hm; simp at hm; rw [hm]; decide)⟩

/-! ## Thread-merge characterization (C2) -/

/-- The thread-parent identification rule of `fetch_threads_by_ts`:
`"thread_ts" in msg and msg["thread_ts"] == msg["ts"]`. -/
def is_thread_parent (msg : RawMessage) : Bool :=
  match msg.thread_ts, msg.ts with
  | some t, some ts => t == ts
  | _, _ => false

/-- The key under which a thread parent's thread is stored (its own
timestamp), `none` for non-parents. -/
def parent_key (msg : RawMessage) : Option String :=
  if is_thread_parent msg then msg.ts else none

/-- Specification of one merged top-level message: format it, and when
it is a thread parent, append its thread's non-parent entries (in
source order, skipping entries whose `ts` equals the thread's
`thread_ts`) as its replies. -/
def merged_message_spec (n : SlackNames) (cfg : LocaleConfig)
    (fetchThread : String → List RawMessage) (msg : RawMessage) :
    Except String Message := do
  let m ← format_message n cfg msg
  match parent_key msg with
  | some t => do
      let rs ← format_thread_replies n cfg t (fetchThread t)
      Except.ok (m.addReplies rs)
  | none => Except.ok m

/-- First-match association lookup (`dict.get` on the insertion-ordered
pair list). -/
def assoc_find (d : List (String × List RawMessage)) (k : String) :
    Option (List RawMessage) :=
  (d.find? (fun p => p.1 == k)).map Prod.snd

theorem parent_key_eq_some {msg : RawMessage} {t : String}
    (h : parent_key msg = some t) : msg.ts = some t ∧ is_thread_parent msg = true := by
  unfold parent_key at h
  by_cases hp : is_thread_parent msg = true
  · rw [if_pos hp] at h
    exact ⟨h, hp⟩
  · rw [if_neg hp] at h
    exact Option.noConfusion h

theorem mapM_eq_ok_iff_forall2 {α β : Type} {f : α → Except String β}
    {l : List α} {out : List β} :
    l.mapM f = Except.ok out ↔
      List.Forall₂ (fun a b => f a = Except.ok b) l out := by
  induction l generalizing out with
  | nil =>
      simp only [List.mapM_nil]
      constructor
      · intro h
        cases out with
        | nil => exact List.Forall₂.nil
        | cons b bs => exact absurd h (by simp [pure, Except.pure])
      · intro h
        cases h
        rfl
  | cons a rest ih =>
      rw [List.mapM_cons]
      constructor
      · intro h
        rw [show (do
              let b ← f a
              let bs ← rest.mapM f
              pure (b :: bs)) = (f a >>= fun b => rest.mapM f >>= fun bs =>
                Except.ok (b :: bs)) from rfl, bind_eq_ok] at h
        obtain ⟨b, hb, h⟩ := h
        rw [bind_eq_ok] at h
        obtain ⟨bs, hbs, h⟩ := h
        obtain rfl : b :: bs = out := (Except.ok.injEq _ _).mp h
        exact List.Forall₂.cons hb (ih.mp hbs)
      · intro h
        cases h with
        | cons hb hrest =>
            rw [hb, ok_bind, ih.mpr hrest, ok_bind]
            rfl

theorem forall2_imp_mem {α β : Type} {r r2 : α → β → Prop} {l : List α}
    {l2 : List β} (h : List.Forall₂ r l l2)
    (himp : ∀ a ∈ l, ∀ b, r a b → r2 a b) : List.Forall₂ r2 l l2 := by
  induction h with
  | nil => exact List.Forall₂.nil
  | cons hab hrest ih =>
      next a b l0 l0' =>
        exact List.Forall₂.cons
          (himp a (List.mem_cons_self a l0) b hab)
          (ih (fun x hx c hc => himp x (List.mem_cons_of_mem a hx) c hc))

theorem forall2_comp {α β γ : Type} {r1 : α → β → Prop} {r2 : β → γ → Prop}
    {l1 : List α} {l2 : List β} {l3 : List γ}
    (h1 : List.Forall₂ r1 l1 l2) (h2 : List.Forall₂ r2 l2 l3) :
    List.Forall₂ (fun a c => ∃ b, r1 a b ∧ r2 b c) l1 l3 := by
  induction h1 generalizing l3 with
  | nil => cases h2; exact List.Forall₂.nil
  | cons hab hrest ih =>
      cases h2 with
      | cons hbc hrest2 => exact List.Forall₂.cons ⟨_, hab, hbc⟩ (ih hrest2)

theorem forall2_mem_left {α β : Type} {r : α → β → Prop} {l : List α}
    {l2 : List β} (h : List.Forall₂ r l l2) {a : α} (ha : a ∈ l) :
    ∃ b ∈ l2, r a b := by
  induction h with
  | nil => simp at ha
  | cons hab hrest ih =>
      next x y l0 l0' =>
        rcases List.mem_cons.mp ha with rfl | ha2
        · exact ⟨y, List.mem_cons_self y l0', hab⟩
        · obtain ⟨b, hb, hr⟩ := ih ha2
          exact ⟨b, List.mem_cons_of_mem y hb, hr⟩

theorem forall2_mem_right {α β : Type} {r : α → β → Prop} {l : List α}
    {l2 : List β} (h : List.Forall₂ r l l2) {b : β} (hb : b ∈ l2) :
    ∃ a ∈ l, r a b := by
  induction h with
  | nil => simp at hb
  | cons hab hrest ih =>
      next x y l0 l0' =>
        rcases List.mem_cons.mp hb with rfl | hb2
        · exact ⟨x, List.mem_cons_self x l0, hab⟩
        · obtain ⟨a, ha, hr⟩ := ih hb2
          exact ⟨a, List.mem_cons_of_mem x ha, hr⟩

/-- On a fresh key, the Python dict assignment appends. -/
theorem dictInsert_of_fresh {α : Type} {d : List (String × α)} {k : String}
    (v : α) (h : ∀ p ∈ d, p.1 ≠ k) : dictInsert d k v = d ++ [(k, v)] := by
  unfold dictInsert
  have hany : d.any (fun p => p.1 == k) = false := by
    rw [List.any_eq_false]
    intro p hp
    simpa using h p hp
  rw [if_neg (by simp [hany])]

/-- Characterization of the thread-fetch loop: with every message
carrying a `ts` and no duplicate parent keys, the resulting dict is the
parents' `(ts, fetched thread)` pairs in source order. -/
theorem fetch_threads_go_char (f : String → List RawMessage) :
    ∀ (msgs : List RawMessage) (acc : List (String × List RawMessage)),
      (∀ r ∈ msgs, r.ts.isSome) →
      (acc.map Prod.fst ++ msgs.filterMap parent_key).Nodup →
      fetch_threads_go f msgs acc =
        Except.ok (acc ++ msgs.filterMap
          (fun r => (parent_key r).map (fun t => (t, f t)))) := by
  intro msgs
  induction msgs with
  | nil =>
      intro acc _ _
      simp [fetch_threads_go]
  | cons r rest ih =>
      intro acc hts hkeys
      have hts_r : r.ts.isSome := hts r (List.mem_cons_self r rest)
      obtain ⟨tsv, htsv⟩ := Option.isSome_iff_exists.mp hts_r
      simp only [fetch_threads_go]
      cases hrt : r.thread_ts with
      | none =>
          have hpk : parent_key r = none := by
            unfold parent_key is_thread_parent
            rw [hrt]
            rfl
          rw [List.filterMap_cons, hpk]
          exact ih acc (fun x hx => hts x (List.mem_cons_of_mem r hx))
            (by rwa [List.filterMap_cons, hpk] at hkeys)
      | some t =>
          dsimp only
          rw [htsv]
          simp only [require, ok_bind]
          by_cases heq : t == tsv
          · have hpk : parent_key r = some tsv := by
              unfold parent_key is_thread_parent
              rw [hrt, htsv, if_pos (by simp [heq])]
            have htts : t = tsv := by simpa using heq
            subst htts
            rw [if_pos heq]
            rw [List.filterMap_cons, hpk] at hkeys
            have hfresh : ∀ p ∈ acc, p.1 ≠ t := by
              intro p hp hpk2
              rw [List.nodup_append] at hkeys
              exact hkeys.2.2 (List.mem_map_of_mem Prod.fst hp)
                (by rw [hpk2]; exact List.mem_cons_self t _)
            rw [dictInsert_of_fresh (f t) hfresh]
            have ihres := ih (acc ++ [(t, f t)])
              (fun x hx => hts x (List.mem_cons_of_mem r hx))
              (by
                rw [List.map_append]
                simpa [List.append_assoc] using hkeys)
            rw [ihres]
            rw [List.filterMap_cons, hpk]
            simp [List.append_assoc]
          · have hpk : parent_key r = none := by
              unfold parent_key is_thread_parent
              rw [hrt, htsv]
              simp only [heq]
              rfl
            rw [if_neg (by simpa using heq)]
            rw [List.filterMap_cons, hpk]
            exact ih acc (fun x hx => hts x (List.mem_cons_of_mem r hx))
              (by rwa [List.filterMap_cons, hpk] at hkeys)

theorem addReplies_thread_ts (m : Message) (rs : List Message) :
    (m.addReplies rs).thread_ts = m.thread_ts := by
  cases m
  rfl

theorem addReplies_nil (m : Message) : m.addReplies [] = m := by
  cases m
  simp [Message.addReplies]

/-- Under distinct top-level timestamps, the merge's append step is a
pointwise update: the unique message with the matching timestamp gets
the replies, every other message is unchanged. -/
theorem appendRepliesToLast_of_nodup (k : String) (rs : List Message) :
    ∀ (msgs : List Message), (msgs.map Message.ts).Nodup →
      appendRepliesToLast msgs k rs =
        msgs.map (fun m => if m.ts == k then m.addReplies rs else m) := by
  intro msgs
  induction msgs with
  | nil => intro _; rfl
  | cons m rest ih =>
      intro hnd
      rw [List.map_cons, List.nodup_cons] at hnd
      obtain ⟨hnotin, hndrest⟩ := hnd
      simp only [appendRepliesToLast, List.map_cons]
      by_cases hany : rest.any (fun m2 => m2.ts == k) = true
      · obtain ⟨m2, hm2, hm2k⟩ := List.any_eq_true.mp hany
        have hm2k2 : m2.ts = k := by simpa using hm2k
        have hmk : ¬ m.ts == k := by
          intro hq
          have : m.ts = k := by simpa using hq
          exact hnotin (by
            rw [this, ← hm2k2]
            exact List.mem_map_of_mem Message.ts hm2)
        rw [if_pos hany, if_neg hmk, ih hndrest]
      · have hnone : ∀ m2 ∈ rest, ¬ m2.ts == k := by
          intro m2 hm2
          have := List.any_eq_false.mp (Bool.eq_false_iff.mpr hany) m2 hm2
          simpa using this
        have hmap : rest.map (fun m2 => if m2.ts == k then m2.addReplies rs else m2) =
            rest := by
          calc rest.map (fun m2 => if m2.ts == k then m2.addReplies rs else m2) =
              rest.map id :=
                List.map_congr_left (fun a ha => by rw [if_neg (hnone a ha)]; rfl)
            _ = rest := List.map_id rest
        rw [if_neg (by simpa using hany), hmap]
        by_cases hmk : m.ts == k
        · rw [if_pos hmk, if_pos hmk]
        · rw [if_neg hmk, if_neg hmk]

theorem assoc_find_nil (k : String) : assoc_find [] k = none := rfl

theorem assoc_find_cons_hit {k : String} (v : List RawMessage)
    (d : List (String × List RawMessage)) :
    assoc_find ((k, v) :: d) k = some v := by
  unfold assoc_find
  rw [List.find?_cons_of_pos _ (by simp)]
  rfl

theorem assoc_find_cons_skip {k k2 : String} (hne : k2 ≠ k) (v : List RawMessage)
    (d : List (String × List RawMessage)) :
    assoc_find ((k2, v) :: d) k = assoc_find d k := by
  unfold assoc_find
  rw [List.find?_cons_of_neg _ (by simp [hne])]

theorem assoc_find_eq_none {k : String} {d : List (String × List RawMessage)}
    (h : k ∉ d.map Prod.fst) : assoc_find d k = none := by
  unfold assoc_find
  rw [List.find?_eq_none.mpr]
  · rfl
  · intro p hp hq
    have hpk : p.1 = k := by simpa using hq
    exact h (hpk ▸ List.mem_map_of_mem Prod.fst hp)

/-- Success characterization of the merge loop: with distinct top-level
timestamps and distinct thread keys, each output message is its input
message with the replies of its (unique) thread appended — messages
without a thread are untouched. -/
theorem merge_threads_eq_ok (n : SlackNames) (cfg : LocaleConfig) :
    ∀ (threads : List (String × List RawMessage)) (msgs out : List Message),
      (msgs.map Message.ts).Nodup →
      (threads.map Prod.fst).Nodup →
      merge_threads n cfg msgs threads = Except.ok out →
      List.Forall₂ (fun m0 m1 =>
        match assoc_find threads m0.ts with
        | some raws => ∃ rs, format_thread_replies n cfg m0.ts raws = Except.ok rs ∧
            m1 = m0.addReplies rs
        | none => m1 = m0) msgs out := by
  intro threads
  induction threads with
  | nil =>
      intro msgs out _ _ hok
      obtain rfl : msgs = out := (Except.ok.injEq _ _).mp hok
      rw [List.forall₂_same]
      intro m _
      exact rfl
  | cons q rest ih =>
      obtain ⟨k, raws⟩ := q
      intro msgs out hmn hkn hok
      rw [List.map_cons, List.nodup_cons] at hkn
      obtain ⟨hknotin, hknrest⟩ := hkn
      simp only [merge_threads] at hok
      by_cases hany : msgs.any (fun m => m.ts == k) = true
      · rw [if_pos (by simpa using hany), bind_eq_ok] at hok
        obtain ⟨rs, hrs, hok⟩ := hok
        rw [appendRepliesToLast_of_nodup k rs msgs hmn] at hok
        have hmn2 : ((msgs.map (fun m => if m.ts == k then m.addReplies rs else m)).map
            Message.ts).Nodup := by
          rw [List.map_map]
          have hcomp : (Message.ts ∘ fun m => if m.ts == k then m.addReplies rs else m) =
              Message.ts := by
            funext m
            simp only [Function.comp_apply]
            by_cases hmk : (m.ts == k) = true
            · rw [if_pos hmk, addReplies_ts]
            · rw [if_neg hmk]
          rwa [hcomp]
        have hrest := ih _ out hmn2 hknrest hok
        rw [List.forall₂_map_left_iff] at hrest
        apply forall2_imp_mem hrest
        intro m0 hm0 m1 hrel
        by_cases hmk : m0.ts == k
        · have hts : m0.ts = k := by simpa using hmk
          rw [if_pos hmk] at hrel
          rw [addReplies_ts] at hrel
          rw [assoc_find_eq_none (by rw [hts]; exact hknotin)] at hrel
          rw [hts, assoc_find_cons_hit]
          exact ⟨rs, hrs, hrel⟩
        · have hts : m0.ts ≠ k := by simpa using hmk
          rw [if_neg hmk] at hrel
          rw [assoc_find_cons_skip (fun hq => hts hq.symm)]
          exact hrel
      · rw [if_neg (by simpa using hany)] at hok
        have hrest := ih msgs out hmn hknrest hok
        apply forall2_imp_mem hrest
        intro m0 hm0 m1 hrel
        have hts : ¬ m0.ts == k := by
          have := List.any_eq_false.mp (Bool.eq_false_iff.mpr hany) m0 hm0
          simpa using this
        rw [assoc_find_cons_skip (fun hq => hts (by simp [hq]))]
        exact hrel

theorem parent_key_nodup {msgs : List RawMessage}
    (h : (msgs.map RawMessage.ts).Nodup) : (msgs.filterMap parent_key).Nodup := by
  induction msgs with
  | nil => exact List.nodup_nil
  | cons r rest ih =>
      rw [List.map_cons, List.nodup_cons] at h
      obtain ⟨hnotin, hnd⟩ := h
      rw [List.filterMap_cons]
      cases hpk : parent_key r with
      | none => exact ih hnd
      | some t =>
          rw [List.nodup_cons]
          refine ⟨?_, ih hnd⟩
          intro hmem
          obtain ⟨r2, hr2, hpk2⟩ := List.mem_filterMap.mp hmem
          have h2 := (parent_key_eq_some hpk2).1
          have h1 := (parent_key_eq_some hpk).1
          exact hnotin (by
            rw [h1, ← h2]
            exact List.mem_map_of_mem RawMessage.ts hr2)

theorem threads_map_fst (f : String → List RawMessage) (msgs : List RawMessage) :
    (msgs.filterMap (fun r => (parent_key r).map (fun t => (t, f t)))).map Prod.fst =
      msgs.filterMap parent_key := by
  induction msgs with
  | nil => rfl
  | cons r rest ih =>
      rw [List.filterMap_cons, List.filterMap_cons]
      cases hpk : parent_key r with
      | none => simpa using ih
      | some t => simpa using ih

theorem assoc_find_of_mem_nodup {d : List (String × List RawMessage)}
    {k : String} {v : List RawMessage}
    (hnd : (d.map Prod.fst).Nodup) (hmem : (k, v) ∈ d) :
    assoc_find d k = some v := by
  induction d with
  | nil => simp at hmem
  | cons p rest ih =>
      obtain ⟨k2, v2⟩ := p
      rw [List.map_cons, List.nodup_cons] at hnd
      obtain ⟨hnotin, hnd2⟩ := hnd
      rcases List.mem_cons.mp hmem with heq | hmem2
      · have hkv : k2 = k ∧ v2 = v := by
          have h2 := heq.symm
          simpa [Prod.ext_iff] using h2
        obtain ⟨rfl, rfl⟩ := hkv
        exact assoc_find_cons_hit _ rest
      · have hne : k2 ≠ k := by
          intro hq
          subst hq
          have hmm := List.mem_map_of_mem Prod.fst hmem2
          exact hnotin hmm
        rw [assoc_find_cons_skip hne]
        exact ih hnd2 hmem2

/-- Claim C2, amended. Thread-parent identification and merge, under the
assumption (true of Slack data) that the top-level messages carry
pairwise-distinct `ts` values.  Whenever the orchestrator succeeds:
(1) a thread is fetched for a top-level message iff its `thread_ts`
equals its `ts` (the thread-root rule), the fetched threads being
exactly the parents' `(ts, thread)` pairs in source order;
(2) each output message is its formatted input message, with — for a
thread parent — the thread's entries appended as replies in source
order, skipping entries whose `ts` equals the thread's `thread_ts`
(`merged_message_spec`), and non-parents (in particular every message
with no `thread_ts`) keeping zero replies;
(3) consequently only thread parents ever have non-empty `replies`, and
a message with no `thread_ts` has none. -/
theorem c2_thread_merge (E : SlackEnv) (cfg : LocaleConfig) (cid : String)
    (data : ChannelExportData)
    (hnodup : (E.fetchTopLevel.map RawMessage.ts).Nodup)
    (hok : fetch_and_format_channel_data E cfg cid = Except.ok data) :
    fetch_threads_by_ts E.fetchThread E.fetchTopLevel =
      Except.ok (E.fetchTopLevel.filterMap
        (fun r => (parent_key r).map (fun t => (t, E.fetchThread t)))) ∧
    E.fetchTopLevel.mapM (merged_message_spec E.names cfg E.fetchThread) =
      Except.ok data.top_level_messages ∧
    (∀ m ∈ data.top_level_messages,
      (m.replies ≠ [] → m.thread_ts = some m.ts) ∧
      (m.thread_ts = none → m.replies = [])) := by
  unfold fetch_and_format_channel_data at hok
  dsimp only at hok
  rw [bind_eq_ok] at hok
  obtain ⟨T, hT, hok⟩ := hok
  rw [bind_eq_ok] at hok
  obtain ⟨F, hF, hok⟩ := hok
  rw [bind_eq_ok] at hok
  obtain ⟨M, hM, hok⟩ := hok
  obtain rfl : _ = data := (Except.ok.injEq _ _).mp hok
  have hFf := mapM_eq_ok_iff_forall2.mp hF
  have htsall : ∀ r ∈ E.fetchTopLevel, r.ts.isSome := by
    intro r hr
    obtain ⟨m, _, hm⟩ := forall2_mem_left hFf hr
    obtain ⟨ts, _, hts, _⟩ := format_message_eq_ok hm
    rw [hts]
    rfl
  have hTchar : fetch_threads_by_ts E.fetchThread E.fetchTopLevel =
      Except.ok (E.fetchTopLevel.filterMap
        (fun r => (parent_key r).map (fun t => (t, E.fetchThread t)))) := by
    unfold fetch_threads_by_ts
    rw [fetch_threads_go_char E.fetchThread E.fetchTopLevel [] htsall
      (by simpa using parent_key_nodup hnodup)]
    rfl
  obtain rfl : T = E.fetchTopLevel.filterMap
      (fun r => (parent_key r).map (fun t => (t, E.fetchThread t))) := by
    rw [hTchar] at hT
    exact ((Except.ok.injEq _ _).mp hT).symm
  have hFts_gen : ∀ (l : List RawMessage) (F2 : List Message),
      List.Forall₂ (fun a b => format_message E.names cfg a = Except.ok b) l F2 →
      F2.map Message.ts = l.filterMap (fun r => r.ts) := by
    intro l F2 hf
    induction hf with
    | nil => rfl
    | cons hab hrest ih =>
        next r m l1 l2 =>
          obtain ⟨ts, _, hts, _, hmts, _⟩ := format_message_eq_ok hab
          rw [List.map_cons, List.filterMap_cons, hts, ih]
          rw [hmts]
  have hFts := hFts_gen E.fetchTopLevel F hFf
  have hFnodup : (F.map Message.ts).Nodup := by
    rw [hFts]
    have h2 : E.fetchTopLevel.filterMap (fun r => r.ts) =
        (E.fetchTopLevel.map RawMessage.ts).filterMap id := by
      rw [List.filterMap_map]
      rfl
    rw [h2]
    exact hnodup.filterMap (by
      intro a a2 b hb hb2
      simp only [Option.mem_def, id] at hb hb2
      rw [hb, hb2])
  have hkeysnodup : ((E.fetchTopLevel.filterMap
      (fun r => (parent_key r).map (fun t => (t, E.fetchThread t)))).map Prod.fst).Nodup := by
    rw [threads_map_fst]
    exact parent_key_nodup hnodup
  have hMchar := merge_threads_eq_ok E.names cfg _ F M hFnodup hkeysnodup hM
  have hcomp := forall2_comp hFf hMchar
  have hspec : List.Forall₂
      (fun r m1 => merged_message_spec E.names cfg E.fetchThread r = Except.ok m1)
      E.fetchTopLevel M := by
    apply forall2_imp_mem hcomp
    intro r hr m1 hex
    obtain ⟨m0, hfmt, hrel⟩ := hex
    obtain ⟨tsv, raw, htsv, _, hm0ts, hm0tt, hm0rep, _⟩ := format_message_eq_ok hfmt
    unfold merged_message_spec
    rw [hfmt, ok_bind]
    cases hpk : parent_key r with
    | none =>
        have hnomem : m0.ts ∉ E.fetchTopLevel.filterMap parent_key := by
          intro hmem
          obtain ⟨r2, hr2, hpk2⟩ := List.mem_filterMap.mp hmem
          have h2 := (parent_key_eq_some hpk2).1
          have hr2r : r2 = r := by
            apply List.inj_on_of_nodup_map hnodup hr2 hr
            rw [h2, htsv, hm0ts]
          rw [hr2r, hpk] at hpk2
          exact Option.noConfusion hpk2
        rw [assoc_find_eq_none (by rw [threads_map_fst]; exact hnomem)] at hrel
        rw [hrel]
    | some t =>
        have hpks := (parent_key_eq_some hpk).1
        have htsv2 : tsv = t := by
          rw [htsv] at hpks
          exact (Option.some.injEq _ _).mp hpks
        have hmemT : (t, E.fetchThread t) ∈ E.fetchTopLevel.filterMap
            (fun r2 => (parent_key r2).map (fun t2 => (t2, E.fetchThread t2))) :=
          List.mem_filterMap.mpr ⟨r, hr, by rw [hpk]; rfl⟩
        have hfind : assoc_find (E.fetchTopLevel.filterMap
            (fun r2 => (parent_key r2).map (fun t2 => (t2, E.fetchThread t2)))) m0.ts =
            some (E.fetchThread t) := by
          rw [hm0ts, htsv2]
          exact assoc_find_of_mem_nodup hkeysnodup hmemT
        rw [hfind] at hrel
        obtain ⟨rs, hrs, hm1⟩ := hrel
        rw [hm0ts, htsv2] at hrs
        show (do
          let rs2 ← format_thread_replies E.names cfg t (E.fetchThread t)
          Except.ok (m0.addReplies rs2)) = Except.ok m1
        rw [hrs, ok_bind, hm1]
  refine ⟨hTchar, ?_, ?_⟩
  · rw [mapM_eq_ok_iff_forall2]
    exact hspec
  · intro m hm
    obtain ⟨r, hr, hsp⟩ := forall2_mem_right hspec hm
    unfold merged_message_spec at hsp
    rw [bind_eq_ok] at hsp
    obtain ⟨m0, hfmt, hsp⟩ := hsp
    obtain ⟨tsv, raw, htsv, _, hm0ts, hm0tt, hm0rep, _⟩ := format_message_eq_ok hfmt
    cases hpk : parent_key r with
    | none =>
        rw [hpk] at hsp
        obtain rfl : m0 = m := (Except.ok.injEq _ _).mp hsp
        exact ⟨fun hq => absurd hm0rep hq, fun _ => hm0rep⟩
    | some t =>
        rw [hpk] at hsp
        rw [bind_eq_ok] at hsp
        obtain ⟨rs, hrs, hsp⟩ := hsp
        obtain rfl : m0.addReplies rs = m := (Except.ok.injEq _ _).mp hsp
        have hparent := (parent_key_eq_some hpk).2
        have hrts : r.ts = some t := (parent_key_eq_some hpk).1
        have hrtt : r.thread_ts = some t := by
          unfold is_thread_parent at hparent
          cases hq : r.thread_ts with
          | none => rw [hq, hrts] at hparent; exact Bool.noConfusion hparent
          | some t0 =>
              rw [hq, hrts] at hparent
              have : t0 = t := by simpa using hparent
              rw [this]
        constructor
        · intro _
          rw [addReplies_thread_ts, hm0tt, hrtt, addReplies_ts, hm0ts]
          have : tsv = t := by
            rw [htsv] at hrts
            exact (Option.some.injEq _ _).mp hrts
          rw [this]
        · intro hq
          rw [addReplies_thread_ts, hm0tt, hrtt] at hq
          exact Option.noConfusion hq

/-- Two top-level messages sharing the timestamp `"1"`: the first is a
thread parent, the second is not. -/
def c2dup_env : SlackEnv :=
  ⟨demoNames,
   [{ ts := some "1", thread_ts := some "1", text := some "", user := some "U1" },
    { ts := some "1", text := some "", user := some "U1" }],
   fun t => if t = "1" then
      [{ ts := some "1", text := some "" }, { ts := some "1.1", text := some "" }]
    else []⟩

/-- Claim C2, counterexample. The claim quantifies over every list of
top-level raw messages; with two top-level messages sharing `ts = "1"`
(the first a thread parent, the second not), the merge's
last-one-wins dict lookup attaches the thread's reply to the second,
non-parent message: the output has a message with `thread_ts = none`
and one reply, refuting both "a top-level message with no thread_ts
ends with zero replies" and "only thread parents ever have non-empty
replies". -/
theorem c2_thread_merge_counterexample :
    (fetch_and_format_channel_data c2dup_env demoCfg "C").map
        (fun d => d.top_level_messages.map
          (fun m => (m.ts, m.thread_ts, m.replies.length))) =
      Except.ok [("1", some "1", 0), ("1", none, 1)] ∧
    (fetch_and_format_channel_data c2dup_env demoCfg "C").map
        (fun d => d.top_level_messages.any
          (fun m => m.thread_ts == none && !m.replies.isEmpty)) =
      Except.ok true :=
  ⟨by rfl, by rfl⟩

/-- The claim's own example: top-level `[{ts:"1", thread_ts:"1"},
{ts:"2"}]`, thread for `"1"` equal to `[{ts:"1"}, {ts:"1.1"},
{ts:"1.2"}]`. -/
def c2ex_env : SlackEnv :=
  ⟨demoNames,
   [{ ts := some "1", thread_ts := some "1", text := some "", user := some "U1" },
    { ts := some "2", text := some "", user := some "U1" }],
   fun t => if t = "1" then
      [{ ts := some "1", text := some "" }, { ts := some "1.1", text := some "" },
       { ts := some "1.2", text := some "" }]
    else []⟩

/-- The export produced on the claim's example. -/
def c2ex_data : ChannelExportData :=
  (fetch_and_format_channel_data c2ex_env demoCfg "C").toOption.getD ⟨⟨"", ""⟩, []⟩

/-- Witness for C2 (amended) at the claim's example: the hypotheses
hold, the characterization applies, and concretely message `"1"` ends
with exactly the replies `"1.1"`, `"1.2"` in order while `"2"` has
none. -/
theorem c2_thread_merge_witness :
    (c2ex_env.fetchTopLevel.map RawMessage.ts).Nodup ∧
    (fetch_threads_by_ts c2ex_env.fetchThread c2ex_env.fetchTopLevel =
      Except.ok (c2ex_env.fetchTopLevel.filterMap
        (fun r => (parent_key r).map (fun t => (t, c2ex_env.fetchThread t)))) ∧
    c2ex_env.fetchTopLevel.mapM
        (merged_message_spec c2ex_env.names demoCfg c2ex_env.fetchThread) =
      Except.ok c2ex_data.top_level_messages ∧
    (∀ m ∈ c2ex_data.top_level_messages,
      (m.replies ≠ [] → m.thread_ts = some m.ts) ∧
      (m.thread_ts = none → m.replies = []))) ∧
    c2ex_data.top_level_messages.map (fun m => (m.ts, m.replies.map Message.ts)) =
      [("1", ["1.1", "1.2"]), ("2", [])] :=
  ⟨by decide,
   c2_thread_merge c2ex_env demoCfg "C" c2ex_data (by decide) (by rfl),
   by rfl⟩

end SlackMessagePipe
